import Mathlib

/-!
Verification of the species-resolution engine of the Momentus repository
(`services/RobustSpeciesService.js`).

The JavaScript source is shallowly embedded: strings are Lean `String`s
(processed as `List Char`), JS regex replacements are translated into
dedicated total functions that implement the exact matching semantics of
each concrete pattern, timestamps are `Nat` milliseconds, JS `Map`s
(which preserve insertion order) are association lists, and the random
draws and upstream HTTP responses consumed by the service are passed in
as explicit parameters.

The regex scanners below either run as one-character-at-a-time state
machines or carry a fuel argument initialised to the input length; a scan
step always consumes at least one input character while spending exactly
one unit of fuel, so the fuel never runs out and the out-of-fuel branch is
unreachable.  All definitions are structurally recursive and therefore
evaluate inside the kernel (`decide`/`rfl`).
-/

namespace Momentus

/-! ## Character classes used by the source's regexes -/

/-- JS regex `\w` (no `u` flag): ASCII letters, digits, underscore. -/
def isWordChar (c : Char) : Bool :=
  ('a' ≤ c && c ≤ 'z') || ('A' ≤ c && c ≤ 'Z') || ('0' ≤ c && c ≤ '9') || c = '_'

/-- JS regex `\d`: ASCII digits. -/
def isAsciiDigit (c : Char) : Bool :=
  '0' ≤ c && c ≤ '9'

/-- JS regex `\s` (and the character class used by `String.prototype.trim`):
whitespace and line-terminator code points. -/
def jsWhitespace (c : Char) : Bool :=
  c = ' ' || c = '\t' || c = '\n' || c = '\r' ||
  c = '\x0b' || c = '\x0c' || c.toNat = 0xA0 || c.toNat = 0x1680 ||
  (0x2000 ≤ c.toNat && c.toNat ≤ 0x200A) ||
  c.toNat = 0x2028 || c.toNat = 0x2029 || c.toNat = 0x202F || c.toNat = 0x205F ||
  c.toNat = 0x3000 || c.toNat = 0xFEFF

theorem length_dropWhile_le (p : Char → Bool) (l : List Char) :
    (l.dropWhile p).length ≤ l.length := by
  induction l with
  | nil => simp [List.dropWhile]
  | cons c cs ih =>
    by_cases h : p c
    · simp only [List.dropWhile, h]
      exact Nat.le_succ_of_le ih
    · simp [List.dropWhile, h]

/-! ## Regex-replacement stages of `sanitizeDisplayName` (source lines 114-137)

Each stage implements one `replace` call of the JS function, with the
precise leftmost-match / greedy semantics of the concrete pattern. -/

/-- State machine of `replace(/\s+/g, ' ')`: the flag records whether the
previous character belonged to a whitespace run that has already emitted
its single replacement space. -/
def collapseWsAux : Bool → List Char → List Char
  | _, [] => []
  | inRun, c :: cs =>
    if jsWhitespace c then
      if inRun then collapseWsAux true cs else ' ' :: collapseWsAux true cs
    else c :: collapseWsAux false cs

/-- `replace(/\s+/g, ' ')`: every maximal whitespace run becomes one space. -/
def collapseWs (l : List Char) : List Char := collapseWsAux false l

/-- `String.prototype.trim()`. -/
def trimWs (l : List Char) : List Char :=
  ((l.dropWhile jsWhitespace).reverse.dropWhile jsWhitespace).reverse

/-- State machine of `replace(/\([^)]*\)/g, '')`.  At a `'('` the pattern
matches up to the next `')'` (the class `[^)]*` cannot cross one), so the
scan enters skip mode exactly when a `')'` lies ahead; a `'('` with no
closing paren ahead produces no match and is kept. -/
def rpAux : Bool → List Char → List Char
  | _, [] => []
  | false, c :: cs =>
    if c = '(' then
      if cs.contains ')' then rpAux true cs else c :: rpAux false cs
    else c :: rpAux false cs
  | true, c :: cs =>
    if c = ')' then rpAux false cs else rpAux true cs

/-- `replace(/\([^)]*\)/g, '')`: remove parenthesised fragments. -/
def removeParens (l : List Char) : List Char := rpAux false l

/-- The optional leading comma `,?` of the author/year patterns.  When the
pattern fails with the comma consumed it also fails without it (the
following classes exclude commas), so consuming an initial comma is
deterministic. -/
def dropComma (s : List Char) : List Char :=
  match s with
  | ',' :: t => t
  | _ => s

/-- Complement of the class `[^,\d]` of the author/year pattern. -/
def ayBarrier (c : Char) : Bool := !(c = ',') && !(isAsciiDigit c)

/-- The position reached by `,?\s*[^,\d]*` (greedy): `\s` is contained in
`[^,\d]`, so after the optional comma the engine gobbles every character
that is neither a comma nor a digit. -/
def aySkip (s : List Char) : List Char :=
  (dropComma s).dropWhile ayBarrier

/-- Attempt of the pattern `,?\s*[^,\d]*\d{3,4}\b` at the head of `s`
(`sanitizeDisplayName`, source line 121).  After `aySkip` the pattern needs
a run of exactly 3 or 4 digits ending at a word boundary; backtracking
cannot relocate `\d{3,4}` because every character skipped by `[^,\d]*` is a
non-digit.  Returns the remainder after the match. -/
def ayMatchAt (s : List Char) : Option (List Char) :=
  if ((aySkip s).takeWhile isAsciiDigit).length = 3 ∨
      ((aySkip s).takeWhile isAsciiDigit).length = 4 then
    if ((aySkip s).dropWhile isAsciiDigit) = [] ∨
        isWordChar (((aySkip s).dropWhile isAsciiDigit).headD ' ') = false then
      some ((aySkip s).dropWhile isAsciiDigit)
    else none
  else none

/-- `replace(/,?\s*[^,\d]*\d{3,4}\b/g, '')` (source line 121): global scan;
after a match the scan resumes at the match end, on failure it advances one
character.  A match consumes at least three characters, so fuel equal to
the input length never runs out. -/
def ayScanF : Nat → List Char → List Char
  | _, [] => []
  | 0, l => l
  | fuel + 1, c :: cs =>
    match ayMatchAt (c :: cs) with
    | some rest => ayScanF fuel rest
    | none => c :: ayScanF fuel cs

def ayScan (l : List Char) : List Char := ayScanF l.length l

/-- The shorthand tokens of `\b(sp|spp|cf|aff|var|subsp|forma?)\b\.?`
(source line 124); `forma?` matches both `form` and `forma`. -/
def shorthandTokens : List (List Char) :=
  ["sp".data, "spp".data, "cf".data, "aff".data, "var".data, "subsp".data,
   "form".data, "forma".data]

/-- Lower-casing used to implement the regex `i` flag on ASCII tokens. -/
def lcRun (l : List Char) : List Char := l.map Char.toLower

/-- `replace(/\b(sp|spp|cf|aff|var|subsp|forma?)\b\.?/gi, '')` (source line
124).  The two `\b` anchors force a match to be exactly a maximal run of
word characters equal (case-insensitively) to one of the tokens; the
trailing `\.?` greedily consumes one immediately following dot. -/
def tokenStageF : Nat → List Char → List Char
  | _, [] => []
  | 0, l => l
  | fuel + 1, c :: cs =>
    if isWordChar c then
      if shorthandTokens.contains (lcRun (c :: cs.takeWhile isWordChar)) then
        match cs.dropWhile isWordChar with
        | '.' :: r2 => tokenStageF fuel r2
        | rest => tokenStageF fuel rest
      else (c :: cs.takeWhile isWordChar) ++ tokenStageF fuel (cs.dropWhile isWordChar)
    else c :: tokenStageF fuel cs

def tokenStage (l : List Char) : List Char := tokenStageF l.length l

/-- The curly-quote normalisation `replace(/[‘’“”]/g, "'")`
(source line 128). -/
def quoteMap (c : Char) : Char :=
  if c = '‘' || c = '’' || c = '“' || c = '”' then '\x27' else c

/-- Characters kept by `replace(/[^\w\s'\-\.]/g, '')` (source line 129). -/
def keepPunct (c : Char) : Bool :=
  isWordChar c || jsWhitespace c || c = '\x27' || c = '-' || c = '.'

/-- Characters of the trailing-junk class `[,\-\.\s]` (source line 132). -/
def trailJunk (c : Char) : Bool :=
  c = ',' || c = '-' || c = '.' || jsWhitespace c

/-- `replace(/[,\-\.\s]+$/g, '')`: strip one trailing junk run. -/
def dropTrailJunk (l : List Char) : List Char :=
  (l.reverse.dropWhile trailJunk).reverse

/-- `RobustSpeciesService.sanitizeDisplayName` (source lines 114-137). -/
def sanitizeDisplayName (name : String) : String :=
  let l1 := trimWs (collapseWs name.data)
  let l2 := removeParens l1
  let l3 := ayScan l2
  let l4 := tokenStage l3
  let l5 := l4.filter (fun c => !(isAsciiDigit c))
  let l6 := l5.map quoteMap
  let l7 := l6.filter keepPunct
  let l8 := trimWs (collapseWs (dropTrailJunk l7))
  if l8.length < 2 then "" else ⟨l8⟩

/-! ## `isValidCommonName` (source lines 142-151) -/

/-- The placeholder tokens of
`\b(sp|spp|species|unidentified|unknown|indet|gen\.?)\b` (source line 149).
The optional dot of `gen\.?` never enlarges the set of matched inputs: when
the dot is present, the preceding `gen` already matches with its own
trailing boundary. -/
def placeholderTokens : List (List Char) :=
  ["sp".data, "spp".data, "species".data, "unidentified".data, "unknown".data,
   "indet".data, "gen".data]

/-- The maximal word-character runs of a string, in order (same fuel
discipline as `tokenStageF`). -/
def wordRunsF : Nat → List Char → List (List Char)
  | _, [] => []
  | 0, _ => []
  | fuel + 1, c :: cs =>
    if isWordChar c then
      (c :: cs.takeWhile isWordChar) :: wordRunsF fuel (cs.dropWhile isWordChar)
    else wordRunsF fuel cs

def wordRuns (l : List Char) : List (List Char) := wordRunsF l.length l

/-- Whether `/\b(tok1|...)\b/i` matches: some maximal word run equals a
token. -/
def hasTokenRun (toks : List (List Char)) (l : List Char) : Bool :=
  (wordRuns l).any (fun r => toks.contains (lcRun r))

/-- `RobustSpeciesService.isValidCommonName` (source lines 142-151). -/
def isValidCommonName (name : String) : Bool :=
  let s := trimWs name.data
  if s.length < 3 then false
  else if s.any isAsciiDigit then false
  else if hasTokenRun placeholderTokens s then false
  else true

/-! ## `extractBinomial` (source lines 156-169) -/

/-- The position reached by `,?\s*` (greedy) in the pattern of source
line 159. -/
def ebSkip (s : List Char) : List Char :=
  (dropComma s).dropWhile jsWhitespace

/-- Attempt of `,?\s*\d{3,4}` at the head of `s` (source line 159): optional
comma, greedy whitespace, then greedily 4 digits if available, else 3.
This pattern has no trailing word boundary. -/
def ebMatchAt (s : List Char) : Option (List Char) :=
  if 4 ≤ ((ebSkip s).takeWhile isAsciiDigit).length then some ((ebSkip s).drop 4)
  else if ((ebSkip s).takeWhile isAsciiDigit).length = 3 then
    some ((ebSkip s).drop 3)
  else none

/-- `replace(/,?\s*\d{3,4}/g, '')` (source line 159): global scan, same fuel
discipline as `ayScanF`. -/
def ebScanF : Nat → List Char → List Char
  | _, [] => []
  | 0, l => l
  | fuel + 1, c :: cs =>
    match ebMatchAt (c :: cs) with
    | some rest => ebScanF fuel rest
    | none => c :: ebScanF fuel cs

def ebScan (l : List Char) : List Char := ebScanF l.length l

/-- `RobustSpeciesService.extractBinomial` (source lines 156-169). -/
def extractBinomial (scientific : String) : String :=
  let l1 := removeParens scientific.data
  let l2 := ebScan l1
  let l3 := trimWs (collapseWs l2)
  let parts := (l3.splitOn ' ').filter (fun w => !w.isEmpty)
  match parts with
  | p0 :: p1 :: _ => ⟨p0 ++ ' ' :: p1⟩
  | _ => ""

/-! ## `capitalizeWords`, `singularize`, `formatDisplayForUI` -/

/-- One word of `capitalizeWords`: first char upper-cased, rest
lower-cased. -/
def capitalizeWord (w : List Char) : List Char :=
  match w with
  | [] => []
  | c :: rest => Char.toUpper c :: rest.map Char.toLower

/-- `RobustSpeciesService.capitalizeWords` (source lines 1019-1023). -/
def capitalizeWords (str : String) : String :=
  ⟨List.intercalate [' '] ((str.data.splitOn ' ').map capitalizeWord)⟩

/-- ASCII lower-casing of a whole string (`String.prototype.toLowerCase`). -/
def lcStr (s : String) : String := ⟨lcRun s.data⟩

/-- `RobustSpeciesService.singularize` (source lines 174-180). -/
def singularize (className : String) : String :=
  let lower := lcStr className
  if lower = "fish" then "fish"
  else if lower.data.getLast? = some 's' then ⟨lower.data.dropLast⟩
  else lower

/-- `RobustSpeciesService.formatDisplayForUI` (source lines 185-206). -/
def formatDisplayForUI (name scientific : String) : String :=
  if isValidCommonName name then capitalizeWords name
  else if scientific ≠ "" then
    match (scientific.data.splitOn ' ').filter (fun w => !w.isEmpty) with
    | p0 :: p1 :: _ => ⟨capitalizeWord p0 ++ ' ' :: lcRun p1⟩
    | _ => ⟨capitalizeWord scientific.data⟩
  else if name ≠ "" then capitalizeWords name
  else "Unknown Species"

/-! ## JS helpers shared by the service -/

/-- JS `a || b` on strings: the empty string is falsy. -/
def jsOr (a b : String) : String := if a = "" then b else a

/-- JS `String.prototype.startsWith`. -/
def jsStartsWith (s p : String) : Bool := s.data.take p.data.length == p.data

/-- JS `String.prototype.endsWith`. -/
def jsEndsWith (s p : String) : Bool :=
  s.data.drop (s.data.length - p.data.length) == p.data

/-- Whether `p` occurs as a contiguous sublist of the second argument. -/
def isInfixL (p : List Char) : List Char → Bool
  | [] => p.isEmpty
  | c :: t => p.isPrefixOf (c :: t) || isInfixL p t

/-- JS `String.prototype.includes`. -/
def containsSub (s sub : String) : Bool := isInfixL sub.data s.data

/-- `responseText.slice(0, 512)`. -/
def takeSnippet (s : String) : String := ⟨s.data.take 512⟩

/-! ## Data model (constructor, source lines 4-109) -/

/-- One entry of `this.taxonomicClasses` (source lines 7-13). -/
structure TaxClass where
  name : String
  key : Nat
  displayName : String
deriving DecidableEq, Repr

def taxonomicClasses : List TaxClass :=
  [⟨"birds", 212, "Birds"⟩, ⟨"mammals", 359, "Mammals"⟩, ⟨"fish", 204, "Fish"⟩,
   ⟨"reptiles", 358, "Reptiles"⟩, ⟨"amphibians", 131, "Amphibians"⟩]

/-- A species record as the service passes it around.  JS objects carry the
fields dynamically; a missing string field is the falsy `""` and a missing
`lastUsed` is the falsy `0`, which matches every `||`/truthiness use in the
source.  `speciesF` models the legacy `species` property consulted by
`src.scientificName || src.species`. -/
structure Sp where
  name : String := ""
  commonName : String := ""
  scientificName : String := ""
  speciesF : String := ""
  type : String := ""
  habitat : String := ""
  source : String := ""
  lastUsed : Nat := 0
deriving DecidableEq, Repr

/-- `this.globalFallbacks` (source lines 26-32). -/
def birdsGlobal : List String :=
  ["House Sparrow", "Rock Dove", "European Starling", "House Finch", "American Robin"]

def globalFallbackTable (animalType : String) : Option (List String) :=
  if animalType = "birds" then some birdsGlobal
  else if animalType = "mammals" then
    some ["House Mouse", "Brown Rat", "Domestic Cat", "Domestic Dog", "White-tailed Deer"]
  else if animalType = "fish" then
    some ["Goldfish", "Carp", "Bass", "Trout", "Catfish"]
  else if animalType = "reptiles" then
    some ["House Gecko", "Green Anole", "Garter Snake", "Box Turtle", "Fence Lizard"]
  else if animalType = "amphibians" then
    some ["American Bullfrog", "Green Frog", "Spring Peeper", "Red-eared Slider", "Wood Frog"]
  else none

/-- `this.scientificToCommon` (source lines 35-75). -/
def scientificToCommon (k : String) : Option String :=
  if k = "Passer domesticus" then some "House Sparrow"
  else if k = "Columba livia" then some "Rock Dove"
  else if k = "Sturnus vulgaris" then some "European Starling"
  else if k = "Haemorhous mexicanus" then some "House Finch"
  else if k = "Turdus migratorius" then some "American Robin"
  else if k = "Corvus brachyrhynchos" then some "American Crow"
  else if k = "Poecile atricapillus" then some "Black-capped Chickadee"
  else if k = "Sitta carolinensis" then some "White-breasted Nuthatch"
  else if k = "Falco sparverius" then some "American Kestrel"
  else if k = "Buteo jamaicensis" then some "Red-tailed Hawk"
  else if k = "Mus musculus" then some "House Mouse"
  else if k = "Rattus norvegicus" then some "Brown Rat"
  else if k = "Felis catus" then some "Domestic Cat"
  else if k = "Canis lupus" then some "Gray Wolf"
  else if k = "Odocoileus virginianus" then some "White-tailed Deer"
  else if k = "Procyon lotor" then some "Raccoon"
  else if k = "Sciurus carolinensis" then some "Eastern Gray Squirrel"
  else if k = "Tamias striatus" then some "Eastern Chipmunk"
  else if k = "Anolis carolinensis" then some "Green Anole"
  else if k = "Sceloporus undulatus" then some "Fence Lizard"
  else if k = "Thamnophis sirtalis" then some "Garter Snake"
  else if k = "Terrapene carolina" then some "Box Turtle"
  else if k = "Lithobates catesbeianus" then some "American Bullfrog"
  else if k = "Lithobates clamitans" then some "Green Frog"
  else if k = "Pseudacris crucifer" then some "Spring Peeper"
  else if k = "Anaxyrus americanus" then some "American Toad"
  else if k = "Carassius auratus" then some "Goldfish"
  else if k = "Cyprinus carpio" then some "Common Carp"
  else if k = "Micropterus salmoides" then some "Largemouth Bass"
  else if k = "Salmo trutta" then some "Brown Trout"
  else none

/-- `this.regionalFallbacks` (source lines 78-97): region tag and class name
to the curated list, `none` where the nested object has no such key. -/
def regionalTable (region animalType : String) : Option (List String) :=
  if region = "california" then
    if animalType = "birds" then
      some ["Anna\x27s Hummingbird", "California Scrub-Jay", "Western Bluebird", "Red-tailed Hawk"]
    else if animalType = "mammals" then
      some ["California Ground Squirrel", "Coyote", "Mule Deer", "Bobcat"]
    else if animalType = "reptiles" then
      some ["Western Fence Lizard", "Alligator Lizard", "Gopher Snake", "Rattlesnake"]
    else none
  else if region = "pacific_northwest" then
    if animalType = "birds" then
      some ["Steller\x27s Jay", "Dark-eyed Junco", "Pacific Wren", "Varied Thrush"]
    else if animalType = "mammals" then
      some ["Douglas Squirrel", "Black Bear", "Elk", "Raccoon"]
    else if animalType = "fish" then
      some ["Chinook Salmon", "Coho Salmon", "Steelhead Trout", "Pacific Cod"]
    else none
  else if region = "eastern_forests" then
    if animalType = "birds" then
      some ["Blue Jay", "Cardinal", "Wood Thrush", "Pileated Woodpecker"]
    else if animalType = "mammals" then
      some ["Eastern Gray Squirrel", "White-tailed Deer", "Black Bear", "Raccoon"]
    else if animalType = "amphibians" then
      some ["Wood Frog", "Spring Peeper", "Red-backed Salamander", "American Toad"]
    else none
  else none

/-- `RobustSpeciesService.inferHabitat` (source lines 1028-1058). -/
def inferHabitat (speciesName animalType : String) : String :=
  let nm := lcStr speciesName
  if containsSub nm "fish" || containsSub nm "salmon" || containsSub nm "trout" ||
      containsSub nm "frog" || containsSub nm "turtle" || containsSub nm "duck" then "aquatic"
  else if containsSub nm "wood" || containsSub nm "tree" || containsSub nm "forest" then "forest"
  else if containsSub nm "house" || containsSub nm "city" || containsSub nm "urban" then "urban"
  else if animalType = "birds" then "woodland"
  else if animalType = "mammals" then "terrestrial"
  else if animalType = "fish" then "freshwater"
  else if animalType = "reptiles" then "terrestrial"
  else if animalType = "amphibians" then "wetland"
  else if animalType = "insects" then "terrestrial"
  else "terrestrial"

/-- `RobustSpeciesService.getGlobalFallback` (source lines 988-998). -/
def getGlobalFallback (animalType : String) : List Sp :=
  ((globalFallbackTable animalType).getD birdsGlobal).map (fun nm =>
    { name := capitalizeWords (jsOr (sanitizeDisplayName nm) (jsOr (extractBinomial nm) nm)),
      scientificName := extractBinomial nm,
      type := singularize animalType,
      habitat := inferHabitat nm animalType,
      source := "global-fallback" })

/-- `RobustSpeciesService.getRegionalFallback` (source lines 956-983). -/
def getRegionalFallback (lat lon : ℚ) (animalType : String) : List Sp :=
  let region :=
    if 32 ≤ lat ∧ lat ≤ 42 ∧ -125 ≤ lon ∧ lon ≤ -114 then "california"
    else if 42 ≤ lat ∧ lat ≤ 49 ∧ -125 ≤ lon ∧ lon ≤ -116 then "pacific_northwest"
    else if 25 ≤ lat ∧ lat ≤ 47 ∧ -100 ≤ lon ∧ lon ≤ -66 then "eastern_forests"
    else "default"
  match regionalTable region animalType with
  | some names => names.map (fun nm =>
      { name := capitalizeWords (jsOr (sanitizeDisplayName nm) (jsOr (extractBinomial nm) nm)),
        scientificName := extractBinomial nm,
        type := singularize animalType,
        habitat := inferHabitat nm animalType,
        source := "regional-" ++ region })
  | none => []

/-! ## Location-clustered cache (source lines 279-367)

JS `Map` iteration follows insertion order and `set` on an existing key
keeps its position, so the cache is an association list.  The source key is
the template `` `${roundedLat}_${roundedLng}_${name}` `` with coordinates
rounded to 2 decimals; this embedding renders the rounded coordinate by its
integer numerator in hundredths (`Math.round(lat*100)`), which is injective
in the rounded value exactly as the decimal rendering is, and ends with the
identical `_name` segment used by the per-class `endsWith` filter. -/

/-- `Math.round`: half-up rounding, `Math.round(x) = floor(x + 0.5)`. -/
def jsRound (q : ℚ) : Int := Int.floor (q + 1 / 2)

/-- One cache value (source lines 359-364). -/
structure CacheEntry where
  speciesL : List Sp
  timestamp : Nat
  location : ℚ × ℚ
  seededByGBIF : Bool
deriving DecidableEq

/-- The cache `Map`, in insertion order. -/
abbrev Cache := List (String × CacheEntry)

def mapGet (m : Cache) (k : String) : Option CacheEntry :=
  (m.find? (fun p => p.1 == k)).map Prod.snd

def mapSet (m : Cache) (k : String) (v : CacheEntry) : Cache :=
  if m.any (fun p => p.1 == k) then m.map (fun p => if p.1 == k then (k, v) else p)
  else m ++ [(k, v)]

def mapDelete (m : Cache) (k : String) : Cache :=
  m.filter (fun p => !(p.1 == k))

/-- `RobustSpeciesService.generateLocationKey` (source lines 279-284). -/
def generateLocationKey (lat lon : ℚ) (cls : TaxClass) : String :=
  toString (jsRound (lat * 100)) ++ "_" ++ toString (jsRound (lon * 100)) ++ "_" ++ cls.name

def maxCacheSize : Nat := 200

/-- Normalisation of one cached species entry (source lines 337-353). -/
def normalizeEntry (cls : TaxClass) (s : Sp) : Sp :=
  let rawName := jsOr s.name s.commonName
  let cleaned := sanitizeDisplayName rawName
  let cleaned2 :=
    if isValidCommonName cleaned then cleaned
    else jsOr (extractBinomial (jsOr s.scientificName s.speciesF)) cleaned
  { s with
    name := jsOr (capitalizeWords cleaned2) s.name,
    scientificName := jsOr (extractBinomial (jsOr s.scientificName s.speciesF)) s.scientificName,
    type := if s.type ≠ "" then singularize s.type else singularize cls.name }

/-- `RobustSpeciesService.cacheSpecies` (source lines 322-367). -/
def cacheSpecies (cache : Cache) (lat lon : ℚ) (cls : TaxClass) (speciesL : List Sp)
    (nowT : Nat) : Cache :=
  let cacheKey := generateLocationKey lat lon cls
  let classKeys := (cache.map Prod.fst).filter (fun k => jsEndsWith k ("_" ++ cls.name))
  let cache1 :=
    if maxCacheSize ≤ classKeys.length then
      match classKeys with
      | [] => cache
      | k0 :: _ => mapDelete cache k0
    else cache
  let normalized := speciesL.map (normalizeEntry cls)
  let seeded := normalized.any (fun s => s.source != "" && jsStartsWith (lcStr s.source) "gbif")
  mapSet cache1 cacheKey ⟨normalized, nowT, (lat, lon), seeded⟩

/-- `RobustSpeciesService.getCachedEntry` (source lines 314-317). -/
def getCachedEntry (cache : Cache) (lat lon : ℚ) (cls : TaxClass) : Option CacheEntry :=
  mapGet cache (generateLocationKey lat lon cls)

/-! ## Circuit-breaker state and upstream fetch (source lines 99-105, 709-951)

`fetchFromGBIF` performs I/O; the embedding passes the environment in: one
`AttemptEnv` per loop iteration carries the handling time of the response
(`Date.now()` at that moment), the outcome of the main request (either a
thrown network error or an `HttpResponse`), the jitter drawn by
`Math.random`, and an oracle for the per-species vernacular sub-requests.
The output records the produced species list, the final mutable state, the
number of HTTP requests performed (`io`) and the `setTimeout` sleeps. -/

structure GbifErr where
  status : Option Nat := none
  message : String := ""
  raw : String := ""
  retryAfterMs : Option Nat := none
deriving DecidableEq

structure Circuit where
  openFlag : Bool := false
  openUntil : Nat := 0
  lastOpenedReason : Option String := none
  consecutiveFailures : Nat := 0
deriving DecidableEq

structure SvcState where
  circuit : Circuit := {}
  lastGBIFError : Option GbifErr := none
deriving DecidableEq

structure VernName where
  vernacularName : String := ""
  language : String := ""
  lang : String := ""
deriving DecidableEq

structure GbifRecord where
  key : Nat := 0
  scientificName : String := ""
  canonicalName : String := ""
  vernacularNames : List VernName := []
  vernacularNameStr : String := ""
  vernacularNameArr : List VernName := []
  commonName : String := ""
deriving DecidableEq

structure GbifPayload where
  results : Option (List GbifRecord) := none
deriving DecidableEq

structure HttpResponse where
  status : Nat
  statusText : String := ""
  retryAfterSec : Option Nat := none
  contentType : String := ""
  bodyText : String := ""
  bodyStartsHtml : Bool := false
  json : Option GbifPayload := none

inductive FetchOutcome where
  | thrown (msg : String)
  | resp (r : HttpResponse)

structure AttemptEnv where
  time : Nat
  outcome : FetchOutcome
  jitter : Nat := 0
  vern : Nat → Option (List VernName) := fun _ => none

structure FetchOut where
  speciesL : List Sp
  state : SvcState
  io : Nat
  sleeps : List Nat

/-- Validity-checked sanitisation used all over `getBestVernacular`:
a truthy raw name whose sanitised form passes `isValidCommonName`. -/
def vCheck (s : String) : Option String :=
  if s ≠ "" then
    let c := sanitizeDisplayName s
    if isValidCommonName c then some c else none
  else none

/-- `RobustSpeciesService.getBestVernacular` (source lines 211-274). -/
def getBestVernacular (rec : GbifRecord) : String :=
  let r1 := (rec.vernacularNames.find? (fun n =>
      (n.language == "eng" || n.language == "en") && n.vernacularName != "")).bind
    (fun n => vCheck n.vernacularName)
  let r2 := (rec.vernacularNames.find? (fun n =>
      n.language != "" && jsStartsWith (lcStr n.language) "en" && n.vernacularName != "")).bind
    (fun n => vCheck n.vernacularName)
  let r3 := rec.vernacularNames.findSome? (fun n => vCheck n.vernacularName)
  let r4 := vCheck rec.vernacularNameStr
  let r5 := (rec.vernacularNameArr.find? (fun n =>
      (n.language == "en" || n.lang == "en") && n.vernacularName != "")).bind
    (fun n => vCheck n.vernacularName)
  let r6 := rec.vernacularNameArr.findSome? (fun n => vCheck n.vernacularName)
  let r7 := vCheck rec.commonName
  (((((((r1.orElse (fun _ => r2)).orElse (fun _ => r3)).orElse (fun _ => r4)).orElse
    (fun _ => r5)).orElse (fun _ => r6)).orElse (fun _ => r7))).getD ""

/-- Accumulator of the record loop (source lines 838-905): the `seen` map in
insertion order plus the I/O and sleeps of vernacular sub-requests. -/
structure SeenAcc where
  seen : List (String × Sp) := []
  io : Nat := 0
  sleeps : List Nat := []

/-- One iteration of `for (const species of data.results.slice(0, 50))`
(source lines 841-904). -/
def processRecord (cls : TaxClass) (radius : Nat) (vern : Nat → Option (List VernName))
    (acc : SeenAcc) (rec : GbifRecord) : SeenAcc :=
  let d0 := getBestVernacular rec
  let subNeeded := d0 == "" && rec.key != 0 && decide (acc.seen.length < 20)
  let acc1 := if subNeeded then
      { acc with io := acc.io + 1, sleeps := acc.sleeps ++ [100] }
    else acc
  let d1 := if subNeeded then
      match vern rec.key with
      | some vl =>
        match vl.find? (fun v => v.language == "eng" && v.vernacularName != "" &&
            isValidCommonName (sanitizeDisplayName v.vernacularName)) with
        | some v => sanitizeDisplayName v.vernacularName
        | none => d0
      | none => d0
    else d0
  let rawScientific := jsOr rec.scientificName rec.canonicalName
  let scientific := extractBinomial rawScientific
  let d2 := if d1 == "" && scientific != "" then
      match scientificToCommon scientific with
      | some m => m
      | none => d1
    else d1
  let cleanedDisplay0 := if d2 != "" then sanitizeDisplayName d2 else ""
  let cleanedDisplay := if isValidCommonName cleanedDisplay0 then cleanedDisplay0 else scientific
  if cleanedDisplay == "" then acc1
  else
    let key := lcStr cleanedDisplay
    if acc1.seen.any (fun p => p.1 == key) then acc1
    else
      { acc1 with seen := acc1.seen ++ [(key,
          { name := capitalizeWords (sanitizeDisplayName cleanedDisplay),
            scientificName := scientific,
            type := singularize cls.name,
            habitat := inferHabitat cleanedDisplay cls.name,
            source := "GBIF-" ++ toString radius ++ "km" })] }

/-- The parsed-success tail of `fetchFromGBIF` (source lines 838-938):
record loop, then the post-processing map and filter (lines 907-927). -/
def processResults (cls : TaxClass) (radius : Nat) (vern : Nat → Option (List VernName))
    (records : List GbifRecord) : List Sp × Nat × List Nat :=
  let acc := (records.take 50).foldl (processRecord cls radius vern) {}
  let species0 := (acc.seen.map Prod.snd).take 200
  let species1 := species0.map (fun s =>
    let binomial := extractBinomial (jsOr s.scientificName s.name)
    let cleanedCommon0 := sanitizeDisplayName s.name
    let cleanedCommon := if !(isValidCommonName cleanedCommon0) && binomial != "" then
        match scientificToCommon binomial with
        | some m => m
        | none => cleanedCommon0
      else cleanedCommon0
    let finalDisplay := formatDisplayForUI cleanedCommon binomial
    ({ name := finalDisplay
       scientificName := binomial
       type := singularize (jsOr s.type cls.name)
       habitat := jsOr s.habitat (inferHabitat finalDisplay cls.name)
       source := jsOr s.source ("GBIF-" ++ toString radius ++ "km") } : Sp))
  let species2 := species1.filter (fun s => s.name != "" && lcStr s.name != "unknown species")
  (species2, acc.io, acc.sleeps)

def maxRetries : Nat := 3

def respOk (status : Nat) : Bool := decide (200 ≤ status) && decide (status < 300)

/-- The retry loop of `fetchFromGBIF` (source lines 734-951), one recursive
step per `attempt`; `attemptNo` is the 1-based loop counter, `io` counts the
HTTP requests made so far and `sleeps` the `setTimeout` delays (the fixed
250 ms pre-request delay of line 751, the exponential 5xx backoff with
jitter of lines 806-808, and the linear delay of line 944 after a thrown
error).  Every exit path stores a fresh `lastGBIFError` (or clears it), so
the error value carried in is only returned when no attempts remain. -/
def fetchLoop (cls : TaxClass) (radius : Nat) :
    Circuit → Option GbifErr → List AttemptEnv → Nat → Nat → List Nat → FetchOut
  | circ, err, [], _, io, sleeps => ⟨[], ⟨circ, err⟩, io, sleeps⟩
  | circ, _, a :: rest, attemptNo, io, sleeps =>
    match a.outcome with
    | .thrown msg =>
      if attemptNo < maxRetries then
        fetchLoop cls radius circ (some ({ message := msg } : GbifErr)) rest
          (attemptNo + 1) (io + 1) (sleeps ++ [250, 1000 * attemptNo])
      else ⟨[], ⟨circ, some ({ message := msg } : GbifErr)⟩, io + 1, sleeps ++ [250]⟩
    | .resp r =>
      if r.status == 429 then
        ⟨[], ⟨{ openFlag := true
                openUntil := a.time + min ((match r.retryAfterSec with
                  | some n => n * 1000
                  | none => 1000 * 60) + 5000) (1000 * 60 * 10)
                lastOpenedReason := some ("429 rate limit: retry-after " ++
                  (match r.retryAfterSec with | some n => toString n | none => "null"))
                consecutiveFailures := circ.consecutiveFailures + 1 },
            some ({ status := some 429
                    message := "GBIF rate limited"
                    raw := takeSnippet r.bodyText
                    retryAfterMs := some (match r.retryAfterSec with
                      | some n => n * 1000
                      | none => 1000 * 60) } : GbifErr)⟩,
          io + 1, sleeps ++ [250]⟩
      else if r.bodyStartsHtml || !(containsSub r.contentType "application/json") then
        ⟨[], ⟨circ, some ({ status := some r.status
                            message := "Unexpected content from GBIF: " ++ r.contentType
                            raw := takeSnippet r.bodyText } : GbifErr)⟩,
          io + 1, sleeps ++ [250]⟩
      else if !(respOk r.status) then
        if decide (500 ≤ r.status) && decide (attemptNo < maxRetries) then
          fetchLoop cls radius { circ with consecutiveFailures := circ.consecutiveFailures + 1 }
            (some ({ status := some r.status
                     message := "GBIF API returned " ++ toString r.status ++ ": " ++ r.statusText
                     raw := takeSnippet r.bodyText } : GbifErr))
            rest (attemptNo + 1) (io + 1)
            (sleeps ++ [250, 1000 * 2 ^ attemptNo + a.jitter])
        else
          ⟨[], ⟨(if 2 ≤ circ.consecutiveFailures then
                  { circ with openFlag := true
                              openUntil := a.time + 1000 * 60 * 2
                              lastOpenedReason := some "Repeated 5xx errors" }
                else circ),
              some ({ status := some r.status
                      message := "GBIF API returned " ++ toString r.status ++ ": " ++ r.statusText
                      raw := takeSnippet r.bodyText } : GbifErr)⟩,
            io + 1, sleeps ++ [250]⟩
      else
        match r.json with
        | none =>
          ⟨[], ⟨circ, some ({ status := some r.status
                              message := "Invalid JSON from GBIF"
                              raw := takeSnippet r.bodyText } : GbifErr)⟩,
            io + 1, sleeps ++ [250]⟩
        | some payload =>
          match payload.results with
          | some records =>
            ⟨(processResults cls radius a.vern records).1, ⟨circ, none⟩,
              io + 1 + (processResults cls radius a.vern records).2.1,
              sleeps ++ [250] ++ (processResults cls radius a.vern records).2.2⟩
          | none => ⟨[], ⟨circ, none⟩, io + 1, sleeps ++ [250]⟩

/-- `RobustSpeciesService.fetchFromGBIF` (source lines 709-951).  `nowCall`
is `Date.now()` at entry (line 717). -/
def fetchFromGBIF (st : SvcState) (nowCall : Nat) (attempts : List AttemptEnv)
    (cls : TaxClass) (radius : Nat) : FetchOut :=
  if st.circuit.openFlag && decide (nowCall < st.circuit.openUntil) then
    let err : GbifErr := { status := some 429
                           message := "GBIF circuit open - previously rate limited"
                           raw := "" }
    { speciesL := [], state := { st with lastGBIFError := some err }, io := 0, sleeps := [] }
  else
    let circ := if st.circuit.openFlag && decide (st.circuit.openUntil ≤ nowCall) then
        { st.circuit with openFlag := false, consecutiveFailures := 0, lastOpenedReason := none }
      else st.circuit
    fetchLoop cls radius circ none attempts 1 0 []

/-! ## Fallback cascade (source lines 615-704) -/

/-- Layer-3 concatenation of `getSpeciesForClass` (source lines 685-687):
the regional fallback is appended exactly when it is non-empty. -/
def withRegional (lat lon : ℚ) (clsName : String) (fetch200 : List Sp) : List Sp :=
  if 0 < (getRegionalFallback lat lon clsName).length then
    fetch200 ++ getRegionalFallback lat lon clsName
  else fetch200

/-- Layers 1-4 of `getSpeciesForClass` (source lines 664-703), run on a
cache miss: narrow-radius fetch, expanded-radius fetch, regional
concatenation, global concatenation; the first tier that reaches `count`
candidates caches and returns. -/
def getSpeciesForClassTail (cache : Cache) (lat lon : ℚ) (cls : TaxClass) (count : Nat)
    (fetch50 fetch200 : List Sp) (nowT : Nat) : List Sp × Cache :=
  if count ≤ fetch50.length then
    (fetch50, cacheSpecies cache lat lon cls fetch50 nowT)
  else if count ≤ fetch200.length then
    (fetch200, cacheSpecies cache lat lon cls fetch200 nowT)
  else if 0 < (getRegionalFallback lat lon cls.name).length ∧
      count ≤ (withRegional lat lon cls.name fetch200).length then
    (withRegional lat lon cls.name fetch200,
      cacheSpecies cache lat lon cls (withRegional lat lon cls.name fetch200) nowT)
  else
    (withRegional lat lon cls.name fetch200 ++ getGlobalFallback cls.name,
      cacheSpecies cache lat lon cls
        (withRegional lat lon cls.name fetch200 ++ getGlobalFallback cls.name) nowT)

/-- `RobustSpeciesService.getSpeciesForClass` (source lines 656-704),
with the two `fetchFromGBIF` results supplied as parameters (they are the
values the awaited calls produce) and the cache threaded explicitly. -/
def getSpeciesForClass (cache : Cache) (lat lon : ℚ) (cls : TaxClass) (count : Nat)
    (fetch50 fetch200 : List Sp) (nowT : Nat) : List Sp × Cache :=
  match getCachedEntry cache lat lon cls with
  | some e =>
    if 0 < e.speciesL.length then (e.speciesL.take count, cache)
    else getSpeciesForClassTail cache lat lon cls count fetch50 fetch200 nowT
  | none => getSpeciesForClassTail cache lat lon cls count fetch50 fetch200 nowT

/-- One element of the per-class result list of `getSpeciesForMeditation`
(source lines 637-642). -/
structure ClassResult where
  type : String
  speciesL : List Sp
  count : Nat
  source : String
deriving DecidableEq

/-- Return value of `getSpeciesForMeditation`: a plain species list when an
`animalType` was requested, otherwise the per-class result list. -/
inductive MedOut where
  | single (l : List Sp)
  | all (rs : List ClassResult)
deriving DecidableEq

/-- JS truthiness of the `animalType` parameter in the two conditionals
`animalType ? ... : ...` (source lines 620 and 645): `null` and the empty
string are falsy, every other string is truthy. -/
def animalTypeTruthy (animalType : Option String) : Bool :=
  match animalType with
  | some t => !(t == "")
  | none => false

/-- `RobustSpeciesService.getSpeciesForMeditation` (source lines 615-651).
`oracle` supplies the value of each awaited `getSpeciesForClass` call. -/
def getSpeciesForMeditation (oracle : TaxClass → List Sp) (animalType : Option String)
    (count : Nat) : MedOut :=
  let classesToFetch : List TaxClass :=
    if animalTypeTruthy animalType then
      taxonomicClasses.filter (fun cls => cls.name == animalType.getD "")
    else taxonomicClasses
  let results := classesToFetch.map (fun (cls : TaxClass) =>
    let sp := oracle cls
    ({ type := cls.name
       speciesL := sp.take count
       count := sp.length
       source := match sp.head? with
         | some s => jsOr s.source "fallback"
         | none => "fallback" } : ClassResult))
  if animalTypeTruthy animalType then
    .single ((results.head?.map ClassResult.speciesL).getD [])
  else .all results

/-- The classes the `for` loop of `getSpeciesForMeditation` iterates over;
each iteration performs one `getSpeciesForClass` resolution (and hence runs
fallback tiers).  Exposed separately so theorems can state that no class is
fetched. -/
def classesFetched (animalType : Option String) : List TaxClass :=
  if animalTypeTruthy animalType then
    taxonomicClasses.filter (fun cls => cls.name == animalType.getD "")
  else taxonomicClasses

/-! ## Selection policy (source lines 406-450)

The fragment of `selectSpecies` that chooses a candidate from the cached
list and stamps its `lastUsed`.  `r` is the value of
`Math.floor(Math.random() * unused.length)`; on every real execution it is
a valid index of `unused`. -/

def noRepeatDaysDefault : Nat := 2

/-- `this.noRepeatDays * 24 * 60 * 60 * 1000` (source line 417). -/
def twoDaysMsOf (noRepeatDays : Nat) : Nat := noRepeatDays * 24 * 60 * 60 * 1000

/-- The eligibility predicate of the filter on source line 424:
`!s.lastUsed || (now - s.lastUsed) >= twoDaysMs` (JS subtraction can be
negative, hence the `Int` arithmetic). -/
def eligibleSp (now w : Nat) (s : Sp) : Bool :=
  s.lastUsed == 0 || decide ((now : Int) - (s.lastUsed : Int) ≥ (w : Int))

/-- `species.slice().sort((a, b) => (a.lastUsed||0) - (b.lastUsed||0))`
(source line 430): `Array.prototype.sort` is a stable ascending sort by
`lastUsed`, and a stable sort's output is uniquely determined by the input,
so the stable `insertionSort` computes exactly it. -/
def lruSort (l : List Sp) : List Sp :=
  l.insertionSort (fun a b => a.lastUsed ≤ b.lastUsed)

/-- Candidate choice (source lines 420-432). -/
def pickCandidate (l : List Sp) (now w r : Nat) : Option Sp :=
  let unused := l.filter (eligibleSp now w)
  if 0 < unused.length then unused.get? r
  else (lruSort l).head?

/-- The `lastUsed` stamping (source lines 434-440): find the candidate by
case-insensitive name and set its `lastUsed` to `now`. -/
def stampUsed (l : List Sp) (candName : String) (now : Nat) : List Sp :=
  match l.findIdx? (fun s => lcStr s.name == lcStr candName) with
  | some i => l.modify (fun s => { s with lastUsed := now }) i
  | none => l

/-- One full selection step on a cache entry's species list: choose, then
stamp.  Returns the chosen candidate and the updated list. -/
def selectStep (l : List Sp) (now w r : Nat) : Option (Sp × List Sp) :=
  match pickCandidate l now w r with
  | some cand => some (cand, stampUsed l cand.name now)
  | none => none

/-! # Theorems -/

/-! ## C1: the tiered resolution never returns an empty list -/

theorem getGlobalFallback_ne_nil (animalType : String) :
    getGlobalFallback animalType ≠ [] := by
  have h : ((globalFallbackTable animalType).getD birdsGlobal) ≠ [] := by
    unfold globalFallbackTable
    split_ifs <;> simp [birdsGlobal]
  unfold getGlobalFallback
  simpa using h

theorem getSpeciesForClassTail_nonempty (cache : Cache) (lat lon : ℚ) (cls : TaxClass)
    (count : Nat) (hcount : 1 ≤ count) (fetch50 fetch200 : List Sp) (nowT : Nat) :
    (getSpeciesForClassTail cache lat lon cls count fetch50 fetch200 nowT).1 ≠ [] := by
  unfold getSpeciesForClassTail
  split
  · rename_i h50
    intro hnil
    simp only at hnil
    subst hnil
    simp only [List.length_nil] at h50
    omega
  · split
    · rename_i h200
      intro hnil
      simp only at hnil
      subst hnil
      simp only [List.length_nil] at h200
      omega
    · split
      · rename_i hreg
        intro hnil
        simp only at hnil
        obtain ⟨-, hr2⟩ := hreg
        rw [hnil] at hr2
        simp only [List.length_nil] at hr2
        omega
      · intro hnil
        simp only at hnil
        exact getGlobalFallback_ne_nil cls.name (List.append_eq_nil.mp hnil).2

theorem getSpeciesForClassTail_global (cache : Cache) (lat lon : ℚ) (cls : TaxClass)
    (count : Nat) (fetch50 fetch200 : List Sp) (nowT : Nat)
    (h50 : fetch50.length < count) (h200 : fetch200.length < count)
    (hno : ¬(0 < (getRegionalFallback lat lon cls.name).length ∧
      count ≤ (withRegional lat lon cls.name fetch200).length)) :
    (getSpeciesForClassTail cache lat lon cls count fetch50 fetch200 nowT).1 =
      withRegional lat lon cls.name fetch200 ++ getGlobalFallback cls.name := by
  unfold getSpeciesForClassTail
  rw [if_neg (by omega), if_neg (by omega), if_neg hno]

/-- C1: for every coordinate, one of the five supported taxonomic classes and
`desiredCount ≥ 1`, `getSpeciesForClass` returns a non-empty candidate list —
whatever the cache holds and whatever the two upstream fetches deliver; and
when the cache misses and the narrow, expanded and regional tiers all
under-deliver, the result is exactly the accumulated list with the global
static table concatenated last (the global table is never empty, which is
what makes the first conjunct hold on that path). -/
theorem C1_getSpeciesForClass_nonempty (cache : Cache) (lat lon : ℚ) (cls : TaxClass)
    (hcls : cls ∈ taxonomicClasses) (count : Nat) (hcount : 1 ≤ count)
    (fetch50 fetch200 : List Sp) (nowT : Nat) :
    (getSpeciesForClass cache lat lon cls count fetch50 fetch200 nowT).1 ≠ [] ∧
    ((∀ e, getCachedEntry cache lat lon cls = some e → e.speciesL.length = 0) →
      fetch50.length < count → fetch200.length < count →
      ¬(0 < (getRegionalFallback lat lon cls.name).length ∧
        count ≤ (withRegional lat lon cls.name fetch200).length) →
      (getSpeciesForClass cache lat lon cls count fetch50 fetch200 nowT).1 =
        withRegional lat lon cls.name fetch200 ++ getGlobalFallback cls.name) := by
  constructor
  · unfold getSpeciesForClass
    split
    · rename_i e heq
      split
      · rename_i hlen
        intro hnil
        rw [List.take_eq_nil_iff] at hnil
        rcases hnil with h | h
        · omega
        · simp [h] at hlen
      · exact getSpeciesForClassTail_nonempty cache lat lon cls count hcount fetch50 fetch200 nowT
    · exact getSpeciesForClassTail_nonempty cache lat lon cls count hcount fetch50 fetch200 nowT
  · intro hcache h50 h200 hno
    unfold getSpeciesForClass
    split
    · rename_i e heq
      have h0 := hcache e heq
      rw [if_neg (show ¬ 0 < e.speciesL.length by omega)]
      exact getSpeciesForClassTail_global cache lat lon cls count fetch50 fetch200 nowT h50 h200 hno
    · exact getSpeciesForClassTail_global cache lat lon cls count fetch50 fetch200 nowT h50 h200 hno

/-- Witness for C1 at a concrete input: the open-ocean coordinate (0, -160),
class amphibians, desired count 5, empty cache and empty upstream results. -/
theorem C1_witness :
    ((⟨"amphibians", 131, "Amphibians"⟩ : TaxClass) ∈ taxonomicClasses ∧ 1 ≤ 5) ∧
    (getSpeciesForClass [] 0 (-160) ⟨"amphibians", 131, "Amphibians"⟩ 5 [] [] 0).1 ≠ [] := by
  refine ⟨⟨by decide, by decide⟩, ?_⟩
  exact (C1_getSpeciesForClass_nonempty [] 0 (-160) ⟨"amphibians", 131, "Amphibians"⟩
    (by decide) 5 (by decide) [] [] 0).1

/-! ## C10: an unsupported class hint yields the empty list -/

/-- C10 counterexample: the empty string is a non-null `animalType` outside
the five class names, yet it is falsy in JS, so the loop iterates over all
five taxonomic classes and the call returns the per-class result array, not
an empty single list. -/
theorem C10_counterexample :
    classesFetched (some "") = taxonomicClasses ∧
    getSpeciesForMeditation (fun cls => getGlobalFallback cls.name) (some "") 5 ≠
      .single [] := by
  constructor
  · rfl
  · decide

/-- C10: for a non-null, non-empty `animalType` that is not exactly one of
the five class names, `getSpeciesForMeditation` returns the empty species
list, and the class-fetch loop iterates over no class at all (so no
fallback tier can run), whatever the per-class resolution would have
produced.  (The empty string is excluded: it is falsy in JS, so the call
then behaves as if no `animalType` had been given — see the
counterexample.) -/
theorem C10_unknown_type_empty (oracle : TaxClass → List Sp) (count : Nat) (t : String)
    (hne : t ≠ "") (ht : t ∉ ["birds", "mammals", "fish", "reptiles", "amphibians"]) :
    getSpeciesForMeditation oracle (some t) count = .single [] ∧
      classesFetched (some t) = [] := by
  have htr : animalTypeTruthy (some t) = true := by
    unfold animalTypeTruthy
    simp [hne]
  simp only [List.mem_cons, List.mem_singleton, not_or] at ht
  obtain ⟨h1, h2, h3, h4, h5, -⟩ := ht
  have e1 : (("birds" : String) == t) = false := by
    simp only [beq_eq_false_iff_ne, ne_eq]; exact fun h => h1 h.symm
  have e2 : (("mammals" : String) == t) = false := by
    simp only [beq_eq_false_iff_ne, ne_eq]; exact fun h => h2 h.symm
  have e3 : (("fish" : String) == t) = false := by
    simp only [beq_eq_false_iff_ne, ne_eq]; exact fun h => h3 h.symm
  have e4 : (("reptiles" : String) == t) = false := by
    simp only [beq_eq_false_iff_ne, ne_eq]; exact fun h => h4 h.symm
  have e5 : (("amphibians" : String) == t) = false := by
    simp only [beq_eq_false_iff_ne, ne_eq]; exact fun h => h5 h.symm
  have hfilter : taxonomicClasses.filter (fun cls => cls.name == (some t).getD "") = [] := by
    simp only [Option.getD_some]
    simp [taxonomicClasses, List.filter, e1, e2, e3, e4, e5]
  constructor
  · unfold getSpeciesForMeditation
    dsimp only
    rw [if_pos htr, if_pos htr, hfilter]
    rfl
  · unfold classesFetched
    rw [if_pos htr, hfilter]

/-- Witness for C10: the singular hint `"bird"` (not a supported plural). -/
theorem C10_witness :
    getSpeciesForMeditation (fun cls => getGlobalFallback cls.name) (some "bird") 5 =
      .single [] ∧ classesFetched (some "bird") = [] :=
  C10_unknown_type_empty (fun cls => getGlobalFallback cls.name) 5 "bird" (by decide)
    (by decide)

/-! ## C2-C5: circuit-breaker behaviour of the upstream fetch -/

theorem fetchLoop_io_mono (cls : TaxClass) (radius : Nat) (attempts : List AttemptEnv) :
    ∀ (circ : Circuit) (err : Option GbifErr) (n io : Nat) (sleeps : List Nat),
      io ≤ (fetchLoop cls radius circ err attempts n io sleeps).io := by
  induction attempts with
  | nil => intro circ err n io sleeps; exact Nat.le_refl io
  | cons a rest ih =>
    intro circ err n io sleeps
    unfold fetchLoop
    cases a.outcome with
    | thrown msg =>
      dsimp only
      split
      · exact le_trans (Nat.le_succ io) (ih _ _ _ _ _)
      · exact Nat.le_succ io
    | resp r =>
      dsimp only
      split
      · exact Nat.le_succ io
      · split
        · exact Nat.le_succ io
        · split
          · split
            · exact le_trans (Nat.le_succ io) (ih _ _ _ _ _)
            · exact Nat.le_succ io
          · cases hj : r.json with
            | none => exact Nat.le_succ io
            | some payload =>
              dsimp only
              cases hres : payload.results with
              | none => exact Nat.le_succ io
              | some records => dsimp only; omega

theorem fetchLoop_io_cons (cls : TaxClass) (radius : Nat) (circ : Circuit)
    (err : Option GbifErr) (a : AttemptEnv) (rest : List AttemptEnv) (n io : Nat)
    (sleeps : List Nat) :
    io + 1 ≤ (fetchLoop cls radius circ err (a :: rest) n io sleeps).io := by
  unfold fetchLoop
  cases a.outcome with
  | thrown msg =>
    dsimp only
    split
    · exact fetchLoop_io_mono cls radius rest _ _ _ _ _
    · exact Nat.le_refl _
  | resp r =>
    dsimp only
    split
    · exact Nat.le_refl _
    · split
      · exact Nat.le_refl _
      · split
        · split
          · exact fetchLoop_io_mono cls radius rest _ _ _ _ _
          · exact Nat.le_refl _
        · cases hj : r.json with
          | none => exact Nat.le_refl _
          | some payload =>
            dsimp only
            cases hres : payload.results with
            | none => exact Nat.le_refl _
            | some records => dsimp only; omega

/-- C2: while the breaker is open and the call time is before `openUntil`,
every fetch returns the empty list with zero HTTP requests and an unchanged
circuit; once `openUntil` has passed, a call performs network I/O again.
Concretely (third conjunct): after a 429 with retry-after 30 s at time
1000 ms the breaker is open until 36000 ms; a call 10 s later does no I/O
and returns empty; a call at 35 s performs one request and leaves the
circuit closed. -/
theorem C2_circuit_gating :
    (∀ (st : SvcState) (nowCall : Nat) (attempts : List AttemptEnv) (cls : TaxClass)
      (radius : Nat), st.circuit.openFlag = true → nowCall < st.circuit.openUntil →
      (fetchFromGBIF st nowCall attempts cls radius).io = 0 ∧
      (fetchFromGBIF st nowCall attempts cls radius).speciesL = [] ∧
      (fetchFromGBIF st nowCall attempts cls radius).state.circuit = st.circuit) ∧
    (∀ (st : SvcState) (nowCall : Nat) (a : AttemptEnv) (rest : List AttemptEnv)
      (cls : TaxClass) (radius : Nat), st.circuit.openFlag = true →
      st.circuit.openUntil ≤ nowCall →
      1 ≤ (fetchFromGBIF st nowCall (a :: rest) cls radius).io) ∧
    ((fetchFromGBIF {} 1000
        [⟨1000, .resp { status := 429, retryAfterSec := some 30 }, 0, fun _ => none⟩]
        ⟨"birds", 212, "Birds"⟩ 50).state.circuit.openFlag = true ∧
      (fetchFromGBIF {} 1000
        [⟨1000, .resp { status := 429, retryAfterSec := some 30 }, 0, fun _ => none⟩]
        ⟨"birds", 212, "Birds"⟩ 50).state.circuit.openUntil = 36000 ∧
      (fetchFromGBIF (fetchFromGBIF {} 1000
        [⟨1000, .resp { status := 429, retryAfterSec := some 30 }, 0, fun _ => none⟩]
        ⟨"birds", 212, "Birds"⟩ 50).state 11000
        [⟨11000, .resp { status := 429, retryAfterSec := some 30 }, 0, fun _ => none⟩]
        ⟨"birds", 212, "Birds"⟩ 50).io = 0 ∧
      (fetchFromGBIF (fetchFromGBIF {} 1000
        [⟨1000, .resp { status := 429, retryAfterSec := some 30 }, 0, fun _ => none⟩]
        ⟨"birds", 212, "Birds"⟩ 50).state 11000
        [⟨11000, .resp { status := 429, retryAfterSec := some 30 }, 0, fun _ => none⟩]
        ⟨"birds", 212, "Birds"⟩ 50).speciesL = [] ∧
      (fetchFromGBIF (fetchFromGBIF {} 1000
        [⟨1000, .resp { status := 429, retryAfterSec := some 30 }, 0, fun _ => none⟩]
        ⟨"birds", 212, "Birds"⟩ 50).state 36000
        [⟨36000, .resp { status := 200, contentType := "application/json", json := some { results := some [] } }, 0, fun _ => none⟩]
        ⟨"birds", 212, "Birds"⟩ 50).io = 1 ∧
      (fetchFromGBIF (fetchFromGBIF {} 1000
        [⟨1000, .resp { status := 429, retryAfterSec := some 30 }, 0, fun _ => none⟩]
        ⟨"birds", 212, "Birds"⟩ 50).state 36000
        [⟨36000, .resp { status := 200, contentType := "application/json", json := some { results := some [] } }, 0, fun _ => none⟩]
        ⟨"birds", 212, "Birds"⟩ 50).state.circuit.openFlag = false) := by
  refine ⟨?_, ?_, by decide⟩
  · intro st nowCall attempts cls radius hopen hlt
    unfold fetchFromGBIF
    rw [hopen]
    rw [if_pos (by simp [decide_eq_true_eq.mpr hlt])]
    exact ⟨rfl, rfl, rfl⟩
  · intro st nowCall a rest cls radius hopen hle
    unfold fetchFromGBIF
    rw [hopen]
    rw [if_neg (by simp; omega)]
    exact fetchLoop_io_cons cls radius _ none a rest 1 0 []

/-- Witness for C2 at a concrete open circuit. -/
theorem C2_witness :
    (fetchFromGBIF ⟨⟨true, 500, none, 0⟩, none⟩ 100
      [⟨100, .resp { status := 200 }, 0, fun _ => none⟩] ⟨"birds", 212, "Birds"⟩ 50).io = 0 ∧
    (fetchFromGBIF ⟨⟨true, 500, none, 0⟩, none⟩ 100
      [⟨100, .resp { status := 200 }, 0, fun _ => none⟩] ⟨"birds", 212, "Birds"⟩ 50).speciesL
      = [] := by
  have h := (C2_circuit_gating.1 ⟨⟨true, 500, none, 0⟩, none⟩ 100
    [⟨100, .resp { status := 200 }, 0, fun _ => none⟩] ⟨"birds", 212, "Birds"⟩ 50
    (by decide) (by decide))
  exact ⟨h.1, h.2.1⟩

/-- C3: on a 429 with retry-after `d` seconds, the breaker opens with
`openUntil = now + min(d·1000 + 5000 ms, 10 min)`, the call returns the
empty list after exactly one request (no retry, whatever attempts would
remain), and the failure counter is incremented. -/
theorem C3_rate_limited_opens (st : SvcState) (nowCall : Nat)
    (hclosed : st.circuit.openFlag = false)
    (t d jit : Nat) (stext ct bt : String) (bh : Bool) (js : Option GbifPayload)
    (vern : Nat → Option (List VernName)) (rest : List AttemptEnv)
    (cls : TaxClass) (radius : Nat) :
    fetchFromGBIF st nowCall
      (⟨t, .resp { status := 429, statusText := stext, retryAfterSec := some d, contentType := ct, bodyText := bt, bodyStartsHtml := bh, json := js }, jit, vern⟩ :: rest) cls radius =
    { speciesL := []
      state := { circuit := { openFlag := true
                              openUntil := t + min (d * 1000 + 5000) 600000
                              lastOpenedReason := some ("429 rate limit: retry-after " ++
                                toString d)
                              consecutiveFailures := st.circuit.consecutiveFailures + 1 }
                 lastGBIFError := some { status := some 429
                                         message := "GBIF rate limited"
                                         raw := takeSnippet bt
                                         retryAfterMs := some (d * 1000) } }
      io := 1
      sleeps := [250] } := by
  unfold fetchFromGBIF
  rw [hclosed]
  rw [if_neg (by simp)]
  rw [if_neg (by simp)]
  unfold fetchLoop
  norm_num

/-- Witness for C3: retry-after 30 s handled at time 1000 ms. -/
theorem C3_witness :
    fetchFromGBIF {} 1000
      ((⟨1000, .resp { status := 429, statusText := "", retryAfterSec := some 30, contentType := "", bodyText := "", bodyStartsHtml := false, json := none }, 0, fun _ => none⟩ : AttemptEnv) :: []) ⟨"birds", 212, "Birds"⟩ 50 =
    { speciesL := []
      state := { circuit := { openFlag := true
                              openUntil := 1000 + min (30 * 1000 + 5000) 600000
                              lastOpenedReason := some ("429 rate limit: retry-after 30")
                              consecutiveFailures := 0 + 1 }
                 lastGBIFError := some { status := some 429
                                         message := "GBIF rate limited"
                                         raw := takeSnippet ""
                                         retryAfterMs := some (30 * 1000) } }
      io := 1
      sleeps := [250] } :=
  C3_rate_limited_opens {} 1000 rfl 1000 30 0 "" "" "" false none (fun _ => none) []
    ⟨"birds", 212, "Birds"⟩ 50

/-- C4 counterexample: starting from a clean state (`consecutiveFailures = 0`)
a single call whose three attempts all return HTTP 500 leaves
`consecutiveFailures = 2` — not `0 + 1` as "incremented when the attempts
exhaust" predicts — and the breaker opens even though the claim's reading
(`1 ≥ 2` fails) predicts it stays closed. -/
theorem C4_counterexample :
    (fetchFromGBIF {} 0
      [⟨10, .resp { status := 500, contentType := "application/json" }, 0, fun _ => none⟩,
       ⟨20, .resp { status := 500, contentType := "application/json" }, 0, fun _ => none⟩,
       ⟨30, .resp { status := 500, contentType := "application/json" }, 0, fun _ => none⟩]
      ⟨"birds", 212, "Birds"⟩ 50).state.circuit.consecutiveFailures = 2 ∧
    ¬((fetchFromGBIF {} 0
      [⟨10, .resp { status := 500, contentType := "application/json" }, 0, fun _ => none⟩,
       ⟨20, .resp { status := 500, contentType := "application/json" }, 0, fun _ => none⟩,
       ⟨30, .resp { status := 500, contentType := "application/json" }, 0, fun _ => none⟩]
      ⟨"birds", 212, "Birds"⟩ 50).state.circuit.consecutiveFailures = 0 + 1) ∧
    (fetchFromGBIF {} 0
      [⟨10, .resp { status := 500, contentType := "application/json" }, 0, fun _ => none⟩,
       ⟨20, .resp { status := 500, contentType := "application/json" }, 0, fun _ => none⟩,
       ⟨30, .resp { status := 500, contentType := "application/json" }, 0, fun _ => none⟩]
      ⟨"birds", 212, "Birds"⟩ 50).state.circuit.openFlag = true := by
  refine ⟨by decide, by decide, by decide⟩

/-- C4 (amended): on 5xx JSON responses the fetch retries up to the fixed
3 attempts, sleeping the exponential backoff `1000·2^attempt` plus the drawn
jitter before each retry; `consecutiveFailures` is incremented once per
*retried* failing attempt (so by 2 when all three attempts fail), not once
at exhaustion; when the final attempt fails and the counter at that point is
at least 2 — which after three straight 5xx always holds — the breaker opens
for a fixed 2-minute window; the call returns the empty list. -/
theorem C4_amended_5xx_retry (st : SvcState) (nowCall : Nat)
    (hclosed : st.circuit.openFlag = false)
    (r1 r2 r3 : HttpResponse) (t1 t2 t3 j1 j2 j3 : Nat)
    (v1 v2 v3 : Nat → Option (List VernName))
    (h1 : 500 ≤ r1.status) (h1h : r1.bodyStartsHtml = false)
    (h1c : containsSub r1.contentType "application/json" = true)
    (h2 : 500 ≤ r2.status) (h2h : r2.bodyStartsHtml = false)
    (h2c : containsSub r2.contentType "application/json" = true)
    (h3 : 500 ≤ r3.status) (h3h : r3.bodyStartsHtml = false)
    (h3c : containsSub r3.contentType "application/json" = true)
    (cls : TaxClass) (radius : Nat) :
    (fetchFromGBIF st nowCall
      [⟨t1, .resp r1, j1, v1⟩, ⟨t2, .resp r2, j2, v2⟩, ⟨t3, .resp r3, j3, v3⟩]
      cls radius).speciesL = [] ∧
    (fetchFromGBIF st nowCall
      [⟨t1, .resp r1, j1, v1⟩, ⟨t2, .resp r2, j2, v2⟩, ⟨t3, .resp r3, j3, v3⟩]
      cls radius).io = 3 ∧
    (fetchFromGBIF st nowCall
      [⟨t1, .resp r1, j1, v1⟩, ⟨t2, .resp r2, j2, v2⟩, ⟨t3, .resp r3, j3, v3⟩]
      cls radius).state.circuit.consecutiveFailures =
        st.circuit.consecutiveFailures + 2 ∧
    (fetchFromGBIF st nowCall
      [⟨t1, .resp r1, j1, v1⟩, ⟨t2, .resp r2, j2, v2⟩, ⟨t3, .resp r3, j3, v3⟩]
      cls radius).state.circuit.openFlag = true ∧
    (fetchFromGBIF st nowCall
      [⟨t1, .resp r1, j1, v1⟩, ⟨t2, .resp r2, j2, v2⟩, ⟨t3, .resp r3, j3, v3⟩]
      cls radius).state.circuit.openUntil = t3 + 120000 ∧
    (fetchFromGBIF st nowCall
      [⟨t1, .resp r1, j1, v1⟩, ⟨t2, .resp r2, j2, v2⟩, ⟨t3, .resp r3, j3, v3⟩]
      cls radius).sleeps = [250, 2000 + j1, 250, 4000 + j2, 250] := by
  have e1 : (r1.status == 429) = false := by
    simp only [beq_eq_false_iff_ne, ne_eq]; omega
  have e2 : (r2.status == 429) = false := by
    simp only [beq_eq_false_iff_ne, ne_eq]; omega
  have e3 : (r3.status == 429) = false := by
    simp only [beq_eq_false_iff_ne, ne_eq]; omega
  have o1 : respOk r1.status = false := by
    simp only [respOk, Bool.and_eq_false_iff, decide_eq_false_iff_not]; omega
  have o2 : respOk r2.status = false := by
    simp only [respOk, Bool.and_eq_false_iff, decide_eq_false_iff_not]; omega
  have o3 : respOk r3.status = false := by
    simp only [respOk, Bool.and_eq_false_iff, decide_eq_false_iff_not]; omega
  have hout : fetchFromGBIF st nowCall
      [⟨t1, .resp r1, j1, v1⟩, ⟨t2, .resp r2, j2, v2⟩, ⟨t3, .resp r3, j3, v3⟩]
      cls radius =
      ⟨[], ⟨{ st.circuit with openFlag := true
                              openUntil := t3 + 1000 * 60 * 2
                              consecutiveFailures := st.circuit.consecutiveFailures + 1 + 1
                              lastOpenedReason := some "Repeated 5xx errors" },
        some ({ status := some r3.status
                message := "GBIF API returned " ++ toString r3.status ++ ": " ++ r3.statusText
                raw := takeSnippet r3.bodyText } : GbifErr)⟩,
        3, [250, 1000 * 2 ^ 1 + j1, 250, 1000 * 2 ^ 2 + j2, 250]⟩ := by
    unfold fetchFromGBIF
    rw [hclosed]
    rw [if_neg (by simp)]
    rw [if_neg (by simp)]
    unfold fetchLoop
    dsimp only
    rw [e1, h1h, h1c]
    simp only [Bool.false_or, Bool.not_true, Bool.false_eq_true, if_false, o1,
      Bool.not_false, if_true]
    rw [if_pos (show (decide (500 ≤ r1.status) && decide (1 < maxRetries)) = true by
      simp only [Bool.and_eq_true, decide_eq_true_eq, maxRetries]
      exact ⟨h1, by omega⟩)]
    unfold fetchLoop
    dsimp only
    rw [e2, h2h, h2c]
    simp only [Bool.false_or, Bool.not_true, Bool.false_eq_true, if_false, o2,
      Bool.not_false, if_true]
    rw [if_pos (show (decide (500 ≤ r2.status) && decide (1 + 1 < maxRetries)) = true by
      simp only [Bool.and_eq_true, decide_eq_true_eq, maxRetries]
      exact ⟨h2, by omega⟩)]
    unfold fetchLoop
    dsimp only
    rw [e3, h3h, h3c]
    simp only [Bool.false_or, Bool.not_true, Bool.false_eq_true, if_false, o3,
      Bool.not_false, if_true]
    rw [if_neg (show ¬(decide (500 ≤ r3.status) && decide (1 + 1 + 1 < maxRetries)) = true by
      simp [maxRetries])]
    rw [if_pos (show 2 ≤ st.circuit.consecutiveFailures + 1 + 1 by omega)]
    rfl
  rw [hout]
  exact ⟨rfl, rfl, rfl, rfl, rfl, by norm_num⟩

/-- Witness for C4 (amended) at three concrete 500 responses. -/
theorem C4_witness :
    (fetchFromGBIF {} 0
      [⟨10, .resp { status := 500, contentType := "application/json" }, 7, fun _ => none⟩,
       ⟨20, .resp { status := 500, contentType := "application/json" }, 9, fun _ => none⟩,
       ⟨30, .resp { status := 500, contentType := "application/json" }, 0, fun _ => none⟩]
      ⟨"birds", 212, "Birds"⟩ 50).state.circuit.consecutiveFailures = 0 + 2 ∧
    (fetchFromGBIF {} 0
      [⟨10, .resp { status := 500, contentType := "application/json" }, 7, fun _ => none⟩,
       ⟨20, .resp { status := 500, contentType := "application/json" }, 9, fun _ => none⟩,
       ⟨30, .resp { status := 500, contentType := "application/json" }, 0, fun _ => none⟩]
      ⟨"birds", 212, "Birds"⟩ 50).sleeps = [250, 2000 + 7, 250, 4000 + 9, 250] := by
  have h := C4_amended_5xx_retry {} 0 rfl
    { status := 500, contentType := "application/json" }
    { status := 500, contentType := "application/json" }
    { status := 500, contentType := "application/json" }
    10 20 30 7 9 0 (fun _ => none) (fun _ => none) (fun _ => none)
    (by decide) rfl (by decide) (by decide) rfl (by decide) (by decide) rfl (by decide)
    ⟨"birds", 212, "Birds"⟩ 50
  exact ⟨h.2.2.1, h.2.2.2.2.2⟩

/-- C5 counterexample: a successful 200-JSON fetch starting from
`consecutiveFailures = 1` (circuit closed) clears `lastGBIFError` but leaves
`consecutiveFailures` at 1, so the claimed reset to 0 does not happen. -/
theorem C5_counterexample :
    (fetchFromGBIF ⟨⟨false, 0, none, 1⟩, some { message := "earlier failure" }⟩ 0
      [⟨5, .resp { status := 200, contentType := "application/json", json := some { results := some [] } }, 0, fun _ => none⟩]
      ⟨"birds", 212, "Birds"⟩ 50).state.circuit.consecutiveFailures = 1 ∧
    ¬((fetchFromGBIF ⟨⟨false, 0, none, 1⟩, some { message := "earlier failure" }⟩ 0
      [⟨5, .resp { status := 200, contentType := "application/json", json := some { results := some [] } }, 0, fun _ => none⟩]
      ⟨"birds", 212, "Birds"⟩ 50).state.circuit.consecutiveFailures = 0) ∧
    (fetchFromGBIF ⟨⟨false, 0, none, 1⟩, some { message := "earlier failure" }⟩ 0
      [⟨5, .resp { status := 200, contentType := "application/json", json := some { results := some [] } }, 0, fun _ => none⟩]
      ⟨"birds", 212, "Birds"⟩ 50).state.lastGBIFError = none := by
  refine ⟨by decide, by decide, by decide⟩

/-- C5 (amended): after a successful upstream fetch (2xx, JSON content type,
non-HTML body, parseable JSON) the stored failure diagnostic
`lastGBIFError` is cleared, but `consecutiveFailures` is *not* reset by the
success itself: it is 0 after the call only because of the circuit-expiry
reset at entry when the call found an open circuit whose `openUntil` had
passed, and otherwise keeps its previous value. -/
theorem C5_amended_success_state (st : SvcState) (nowCall : Nat)
    (hnoshort : ¬(st.circuit.openFlag = true ∧ nowCall < st.circuit.openUntil))
    (r : HttpResponse) (t jit : Nat) (vern : Nat → Option (List VernName))
    (rest : List AttemptEnv)
    (hok : 200 ≤ r.status ∧ r.status < 300) (hh : r.bodyStartsHtml = false)
    (hc : containsSub r.contentType "application/json" = true)
    (payload : GbifPayload) (hjson : r.json = some payload)
    (cls : TaxClass) (radius : Nat) :
    (fetchFromGBIF st nowCall (⟨t, .resp r, jit, vern⟩ :: rest) cls radius).state.lastGBIFError
      = none ∧
    (fetchFromGBIF st nowCall (⟨t, .resp r, jit, vern⟩ :: rest) cls radius).state.circuit.consecutiveFailures
      = (if st.circuit.openFlag = true then 0 else st.circuit.consecutiveFailures) ∧
    (fetchFromGBIF st nowCall (⟨t, .resp r, jit, vern⟩ :: rest) cls radius).state.circuit.openFlag
      = false := by
  have e429 : (r.status == 429) = false := by
    simp only [beq_eq_false_iff_ne, ne_eq]; omega
  have eok : respOk r.status = true := by
    simp only [respOk, Bool.and_eq_true, decide_eq_true_eq]; omega
  have hcirc : ∀ (circ : Circuit),
      (fetchLoop cls radius circ none (⟨t, .resp r, jit, vern⟩ :: rest) 1 0 []).state.lastGBIFError = none ∧
      (fetchLoop cls radius circ none (⟨t, .resp r, jit, vern⟩ :: rest) 1 0 []).state.circuit = circ := by
    intro circ
    unfold fetchLoop
    dsimp only
    rw [e429, hh, hc]
    simp only [Bool.false_or, Bool.not_true, Bool.false_eq_true, if_false, eok,
      Bool.not_true, Bool.false_eq_true, if_false, hjson]
    cases hres : payload.results with
    | none => exact ⟨rfl, rfl⟩
    | some records => exact ⟨rfl, rfl⟩
  unfold fetchFromGBIF
  cases hflag : st.circuit.openFlag with
  | false =>
    rw [if_neg (by simp [hflag])]
    rw [if_neg (by simp [hflag])]
    rcases hcirc st.circuit with ⟨hl, hcq⟩

    refine ⟨hl, ?_, ?_⟩
    · rw [hcq]
      simp
    · rw [hcq, hflag]
  | true =>
    have hle : st.circuit.openUntil ≤ nowCall := by
      by_contra hlt
      exact hnoshort ⟨hflag, by omega⟩
    rw [if_neg (by simp only [hflag, Bool.true_and, decide_eq_true_eq,
      Bool.not_eq_true]; omega)]
    rw [if_pos (by simp only [hflag, Bool.true_and, decide_eq_true_eq]; omega)]
    rcases hcirc { st.circuit with
      openFlag := false
      consecutiveFailures := 0
      lastOpenedReason := none } with ⟨hl, hcq⟩
    refine ⟨hl, ?_, ?_⟩
    · rw [hcq]
      simp
    · rw [hcq]

/-- Witness for C5 (amended): success after an expired open circuit resets
the counter at entry; success on a closed circuit keeps it. -/
theorem C5_witness :
    (fetchFromGBIF ⟨⟨true, 400, none, 5⟩, none⟩ 400
      [⟨400, .resp { status := 200, contentType := "application/json", json := some { results := some [] } }, 0, fun _ => none⟩]
      ⟨"birds", 212, "Birds"⟩ 50).state.lastGBIFError = none ∧
    (fetchFromGBIF ⟨⟨true, 400, none, 5⟩, none⟩ 400
      [⟨400, .resp { status := 200, contentType := "application/json", json := some { results := some [] } }, 0, fun _ => none⟩]
      ⟨"birds", 212, "Birds"⟩ 50).state.circuit.consecutiveFailures = 0 ∧
    (fetchFromGBIF ⟨⟨true, 400, none, 5⟩, none⟩ 400
      [⟨400, .resp { status := 200, contentType := "application/json", json := some { results := some [] } }, 0, fun _ => none⟩]
      ⟨"birds", 212, "Birds"⟩ 50).state.circuit.openFlag = false := by
  have h := C5_amended_success_state ⟨⟨true, 400, none, 5⟩, none⟩ 400
    (by simp)
    { status := 200, contentType := "application/json", json := some { results := some [] } }
    400 0 (fun _ => none) [] (by decide) rfl (by decide)
    { results := some [] } rfl ⟨"birds", 212, "Birds"⟩ 50
  exact ⟨h.1, h.2.1, h.2.2⟩

/-! ## C6: per-class cache bound and FIFO eviction -/

def cacheKeys (c : Cache) : List String := c.map Prod.fst

/-- The keys the eviction check of `cacheSpecies` (source line 326) collects
for a class: those ending in the `_name` segment. -/
def classKeysOf (c : Cache) (cls : TaxClass) : List String :=
  (cacheKeys c).filter (fun k => jsEndsWith k ("_" ++ cls.name))

def classCount (c : Cache) (cls : TaxClass) : Nat := (classKeysOf c cls).length

/-- A well-formed cache key: produced by `generateLocationKey` for one of
the five registered classes. -/
def KeyWF (k : String) : Prop :=
  ∃ lat lon cls, cls ∈ taxonomicClasses ∧ k = generateLocationKey lat lon cls

/-- The cache invariant: all keys well formed (they are only ever created by
`generateLocationKey`) and pairwise distinct (JS `Map` keys are unique). -/
def CacheWF (c : Cache) : Prop :=
  (∀ k ∈ cacheKeys c, KeyWF k) ∧ (cacheKeys c).Nodup

theorem jsEndsWith_iff (s p : String) : jsEndsWith s p = true ↔ p.data <:+ s.data := by
  unfold jsEndsWith
  rw [beq_iff_eq]
  constructor
  · intro h
    rw [← h]
    exact List.drop_suffix _ _
  · rintro ⟨t, ht⟩
    have hlen : s.data.length = t.length + p.data.length := by
      rw [← ht, List.length_append]
    rw [hlen, Nat.add_sub_cancel, ← ht, List.drop_left]

theorem genKey_suffix_form (lat lon : ℚ) (cls : TaxClass) :
    ∃ X : List Char, (generateLocationKey lat lon cls).data = X ++ '_' :: cls.name.data := by
  refine ⟨(toString (jsRound (lat * 100)) ++ "_" ++ toString (jsRound (lon * 100))).data, ?_⟩
  unfold generateLocationKey
  simp only [String.data_append, List.append_assoc]
  rfl

theorem underscore_data (nm : String) : ("_" ++ nm).data = '_' :: nm.data := by
  simp only [String.data_append]
  rfl

theorem endsWith_genKey_iff (lat lon : ℚ) (cls' cls : TaxClass)
    (h' : cls' ∈ taxonomicClasses) (h : cls ∈ taxonomicClasses) :
    jsEndsWith (generateLocationKey lat lon cls') ("_" ++ cls.name) = true ↔ cls' = cls := by
  obtain ⟨X, hX⟩ := genKey_suffix_form lat lon cls'
  rw [jsEndsWith_iff, hX, underscore_data]
  constructor
  · intro hsuf
    have hsuf2 : '_' :: cls'.name.data <:+ X ++ '_' :: cls'.name.data :=
      List.suffix_append X _
    have hcmp := List.suffix_or_suffix_of_suffix hsuf hsuf2
    fin_cases h' <;> fin_cases h <;>
      first
        | rfl
        | (rcases hcmp with hc | hc <;> exact absurd hc (by decide))
  · rintro rfl
    exact List.suffix_append X _

theorem keyWF_endsWith_iff {k : String} (hk : KeyWF k) {cls : TaxClass}
    (hcls : cls ∈ taxonomicClasses) :
    jsEndsWith k ("_" ++ cls.name) = true ↔ ∃ a b, k = generateLocationKey a b cls := by
  obtain ⟨a, b, cls'', hm, rfl⟩ := hk
  rw [endsWith_genKey_iff a b cls'' cls hm hcls]
  constructor
  · rintro rfl; exact ⟨a, b, rfl⟩
  · rintro ⟨a', b', he⟩
    obtain ⟨X, hX⟩ := genKey_suffix_form a b cls''
    obtain ⟨X', hX'⟩ := genKey_suffix_form a' b' cls
    have hdata : (generateLocationKey a b cls'').data = (generateLocationKey a' b' cls).data := by
      rw [← he]
    rw [hX, hX'] at hdata
    have hs1 : '_' :: cls''.name.data <:+ X' ++ '_' :: cls.name.data := by
      rw [← hdata]; exact List.suffix_append X _
    have hs2 : '_' :: cls.name.data <:+ X' ++ '_' :: cls.name.data :=
      List.suffix_append X' _
    have hcmp := List.suffix_or_suffix_of_suffix hs1 hs2
    fin_cases hm <;> fin_cases hcls <;>
      first
        | rfl
        | (rcases hcmp with hc | hc <;> exact absurd hc (by decide))

theorem cacheKeys_mapDelete (c : Cache) (k : String) :
    cacheKeys (mapDelete c k) = (cacheKeys c).filter (fun x => !(x == k)) := by
  induction c with
  | nil => rfl
  | cons p t ih =>
    simp only [mapDelete, cacheKeys, List.map_cons, List.filter_cons] at *
    by_cases hp : (p.1 == k) = true
    · simp only [hp, Bool.not_true, if_false]
      exact ih
    · simp only [Bool.not_eq_true] at hp
      simp only [hp, Bool.not_false, if_true, List.map_cons, List.cons.injEq]
      exact ⟨trivial, ih⟩

theorem cacheKeys_mapSet (c : Cache) (k : String) (v : CacheEntry) :
    cacheKeys (mapSet c k v) =
      if (cacheKeys c).any (fun x => x == k) then cacheKeys c
      else cacheKeys c ++ [k] := by
  have hany : ∀ (l : Cache), l.any (fun p => p.1 == k)
      = (l.map Prod.fst).any (fun x => x == k) := by
    intro l
    induction l with
    | nil => rfl
    | cons p t ih => simp [List.any_cons, ih]
  unfold mapSet cacheKeys
  rw [hany c]
  by_cases hc : ((c.map Prod.fst).any fun x => x == k) = true
  · rw [if_pos hc, if_pos hc, List.map_map]
    apply List.map_congr_left
    intro p _
    by_cases hp : (p.1 == k) = true
    · have hpk : p.1 = k := beq_iff_eq.mp hp
      simp [Function.comp, hpk]
    · simp only [Bool.not_eq_true] at hp
      simp [Function.comp, hp]
  · rw [if_neg hc, if_neg hc, List.map_append]
    rfl

theorem cacheSpecies_eq (cache : Cache) (lat lon : ℚ) (cls : TaxClass) (sp : List Sp)
    (nowT : Nat) :
    cacheSpecies cache lat lon cls sp nowT =
      mapSet (if maxCacheSize ≤ (classKeysOf cache cls).length then
          (match classKeysOf cache cls with
            | [] => cache
            | k0 :: _ => mapDelete cache k0)
          else cache)
        (generateLocationKey lat lon cls)
        ⟨sp.map (normalizeEntry cls), nowT, (lat, lon),
          (sp.map (normalizeEntry cls)).any
            (fun s => s.source != "" && jsStartsWith (lcStr s.source) "gbif")⟩ := rfl

theorem not_mem_of_any_eq_false {l : List String} {k : String}
    (h : ∀ x ∈ l, x ≠ k) : l.any (fun x => x == k) = false := by
  rw [Bool.eq_false_iff]
  intro hc
  obtain ⟨x, hx, hxk⟩ := List.any_eq_true.mp hc
  exact h x hx (beq_iff_eq.mp hxk)

/-- The final keys of a `cacheSpecies` call that does not evict. -/
theorem cacheSpecies_keys_noevict (cache : Cache) (lat lon : ℚ) (cls : TaxClass)
    (sp : List Sp) (nowT : Nat)
    (hlt : (classKeysOf cache cls).length < maxCacheSize) :
    cacheKeys (cacheSpecies cache lat lon cls sp nowT) =
      if (cacheKeys cache).any (fun x => x == generateLocationKey lat lon cls) then
        cacheKeys cache
      else cacheKeys cache ++ [generateLocationKey lat lon cls] := by
  rw [cacheSpecies_eq, if_neg (by omega)]
  exact cacheKeys_mapSet cache _ _

/-- The final keys of a `cacheSpecies` call that evicts the head key. -/
theorem cacheSpecies_keys_evict (cache : Cache) (lat lon : ℚ) (cls : TaxClass)
    (sp : List Sp) (nowT : Nat) (k0 : String) (t : List String)
    (hsplit : classKeysOf cache cls = k0 :: t)
    (hge : maxCacheSize ≤ (classKeysOf cache cls).length) :
    cacheKeys (cacheSpecies cache lat lon cls sp nowT) =
      if ((cacheKeys cache).filter (fun x => !(x == k0))).any
          (fun x => x == generateLocationKey lat lon cls) then
        (cacheKeys cache).filter (fun x => !(x == k0))
      else (cacheKeys cache).filter (fun x => !(x == k0)) ++
        [generateLocationKey lat lon cls] := by
  rw [cacheSpecies_eq, if_pos hge, hsplit]
  rw [show (match k0 :: t with
      | [] => cache
      | k0 :: _ => mapDelete cache k0) = mapDelete cache k0 from rfl]
  rw [cacheKeys_mapSet, cacheKeys_mapDelete]

theorem filter_ne_head {l : List String} {k0 : String} {t : List String}
    (h : l = k0 :: t) (hnd : l.Nodup) : l.filter (fun x => !(x == k0)) = t := by
  subst h
  rw [List.filter_cons]
  simp only [beq_self_eq_true, Bool.not_true, Bool.false_eq_true, if_false]
  apply List.filter_eq_self.mpr
  intro x hx
  have hne : x ≠ k0 := by
    intro hxe
    subst hxe
    exact (List.nodup_cons.mp hnd).1 hx
  simp [hne]

/-- C6: under the cache invariant (well-formed, distinct keys), one
`cacheSpecies` insertion (a) keeps the per-class key count at or below the
bound 200, (b) leaves the key lists of all other classes untouched, and
(c) when the class already holds exactly 200 keys and a fresh cluster key is
inserted, the resulting key sequence is the old one with exactly the
first-inserted key of that class removed and the new key appended (and the
class count is again exactly 200); moreover (d) the invariant is preserved. -/
theorem C6_cache_bound_fifo (cache : Cache) (lat lon : ℚ) (cls : TaxClass)
    (sp : List Sp) (nowT : Nat) (hwf : CacheWF cache) (hcls : cls ∈ taxonomicClasses) :
    (classCount cache cls ≤ maxCacheSize →
      classCount (cacheSpecies cache lat lon cls sp nowT) cls ≤ maxCacheSize) ∧
    (∀ cls', cls' ∈ taxonomicClasses → cls' ≠ cls →
      classKeysOf (cacheSpecies cache lat lon cls sp nowT) cls' = classKeysOf cache cls') ∧
    (classCount cache cls = maxCacheSize →
      generateLocationKey lat lon cls ∉ cacheKeys cache →
      ∀ k0 t, classKeysOf cache cls = k0 :: t →
        cacheKeys (cacheSpecies cache lat lon cls sp nowT) =
          (cacheKeys cache).filter (fun x => !(x == k0)) ++ [generateLocationKey lat lon cls] ∧
        classCount (cacheSpecies cache lat lon cls sp nowT) cls = maxCacheSize) ∧
    CacheWF (cacheSpecies cache lat lon cls sp nowT) := by
  obtain ⟨hWFk, hnodup⟩ := hwf
  have hnewWF : KeyWF (generateLocationKey lat lon cls) := ⟨lat, lon, cls, hcls, rfl⟩
  have hnewEnds : jsEndsWith (generateLocationKey lat lon cls) ("_" ++ cls.name) = true :=
    (endsWith_genKey_iff lat lon cls cls hcls hcls).mpr rfl
  have hnewEndsNe : ∀ cls', cls' ∈ taxonomicClasses → cls' ≠ cls →
      jsEndsWith (generateLocationKey lat lon cls) ("_" ++ cls'.name) = false := by
    intro cls' hmem hne
    rw [Bool.eq_false_iff]
    intro hc
    exact hne ((endsWith_genKey_iff lat lon cls cls' hcls hmem).mp hc).symm
  have hCKnodup : (classKeysOf cache cls).Nodup := hnodup.filter _
  have hk0facts : ∀ k0 t, classKeysOf cache cls = k0 :: t →
      k0 ∈ cacheKeys cache ∧ jsEndsWith k0 ("_" ++ cls.name) = true ∧
      (∀ cls', cls' ∈ taxonomicClasses → cls' ≠ cls →
        jsEndsWith k0 ("_" ++ cls'.name) = false) := by
    intro k0 t hsplit
    have hk0mem : k0 ∈ classKeysOf cache cls := by rw [hsplit]; exact List.mem_cons_self _ _
    have h1 := (List.mem_filter.mp hk0mem).1
    have h2 := (List.mem_filter.mp hk0mem).2
    refine ⟨h1, h2, ?_⟩
    intro cls' hmem hne
    obtain ⟨a, b, hab⟩ := (keyWF_endsWith_iff (hWFk k0 h1) hcls).mp h2
    rw [hab] at h2 ⊢
    rw [Bool.eq_false_iff]
    intro hc
    exact hne ((endsWith_genKey_iff a b cls cls' hcls hmem).mp hc).symm
  -- per-class filter of the evicted key list
  have hfilter_evict : ∀ k0 t, classKeysOf cache cls = k0 :: t →
      ((cacheKeys cache).filter (fun x => !(x == k0))).filter
        (fun k => jsEndsWith k ("_" ++ cls.name)) = t := by
    intro k0 t hsplit
    rw [List.filter_comm]
    have : (cacheKeys cache).filter (fun k => jsEndsWith k ("_" ++ cls.name)) =
        classKeysOf cache cls := rfl
    rw [this, filter_ne_head hsplit hCKnodup]
  refine ⟨?_, ?_, ?_, ?_⟩
  · -- (a) the bound is preserved
    intro hle
    by_cases hev : maxCacheSize ≤ (classKeysOf cache cls).length
    · have h200 : (classKeysOf cache cls).length = maxCacheSize := le_antisymm hle hev
      rcases hsplit : classKeysOf cache cls with _ | ⟨k0, t⟩
      · rw [hsplit] at h200
        simp [maxCacheSize] at h200
      · have hkeys := cacheSpecies_keys_evict cache lat lon cls sp nowT k0 t hsplit hev
        have hlent : t.length + 1 = maxCacheSize := by
          rw [hsplit] at h200
          simpa using h200
        unfold classCount classKeysOf
        rw [hkeys]
        split
        · rw [hfilter_evict k0 t hsplit]
          omega
        · rw [List.filter_append, hfilter_evict k0 t hsplit]
          simp only [List.filter_cons, hnewEnds, if_true, List.filter_nil,
            List.length_append, List.length_cons, List.length_nil]
          omega
    · have hlt : (classKeysOf cache cls).length < maxCacheSize := by omega
      have hkeys := cacheSpecies_keys_noevict cache lat lon cls sp nowT hlt
      unfold classCount classKeysOf
      rw [hkeys]
      split
      · exact le_of_lt hlt
      · rw [List.filter_append]
        simp only [List.filter_cons, hnewEnds, if_true, List.filter_nil,
          List.length_append, List.length_cons, List.length_nil]
        have : ((cacheKeys cache).filter
            (fun k => jsEndsWith k ("_" ++ cls.name))).length < maxCacheSize := hlt
        omega
  · -- (b) other classes untouched
    intro cls' hmem hne
    have hne' : jsEndsWith (generateLocationKey lat lon cls) ("_" ++ cls'.name) = false :=
      hnewEndsNe cls' hmem hne
    by_cases hev : maxCacheSize ≤ (classKeysOf cache cls).length
    · rcases hsplit : classKeysOf cache cls with _ | ⟨k0, t⟩
      · rw [hsplit] at hev
        simp [maxCacheSize] at hev
      · have hkeys := cacheSpecies_keys_evict cache lat lon cls sp nowT k0 t hsplit hev
        obtain ⟨hk0mem, hk0ends, hk0ne⟩ := hk0facts k0 t hsplit
        have hk0ne' : jsEndsWith k0 ("_" ++ cls'.name) = false := hk0ne cls' hmem hne
        have hsub : ((cacheKeys cache).filter (fun x => !(x == k0))).filter
            (fun k => jsEndsWith k ("_" ++ cls'.name)) = classKeysOf cache cls' := by
          rw [List.filter_comm]
          have heq : (cacheKeys cache).filter (fun k => jsEndsWith k ("_" ++ cls'.name)) =
              classKeysOf cache cls' := rfl
          rw [heq]
          apply List.filter_eq_self.mpr
          intro x hx
          have hxne : x ≠ k0 := by
            intro hxe
            subst hxe
            rw [(List.mem_filter.mp hx).2] at hk0ne'
            exact Bool.true_eq_false.mp hk0ne'
          simp [hxne]
        unfold classKeysOf
        rw [hkeys]
        split
        · exact hsub
        · rw [List.filter_append]
          simp only [List.filter_cons, hne', Bool.false_eq_true, if_false, List.filter_nil,
            List.append_nil]
          exact hsub
    · have hlt : (classKeysOf cache cls).length < maxCacheSize := by omega
      have hkeys := cacheSpecies_keys_noevict cache lat lon cls sp nowT hlt
      unfold classKeysOf
      rw [hkeys]
      split
      · rfl
      · rw [List.filter_append]
        simp only [List.filter_cons, hne', Bool.false_eq_true, if_false, List.filter_nil,
          List.append_nil]
  · -- (c) the 201st distinct cluster evicts exactly the head key
    intro h200 hfresh k0 t hsplit
    have hev : maxCacheSize ≤ (classKeysOf cache cls).length := by
      unfold classCount at h200
      omega
    have hkeys := cacheSpecies_keys_evict cache lat lon cls sp nowT k0 t hsplit hev
    have hfreshf : (((cacheKeys cache).filter (fun x => !(x == k0))).any
        (fun x => x == generateLocationKey lat lon cls)) = false := by
      apply not_mem_of_any_eq_false
      intro x hx hxe
      subst hxe
      exact hfresh (List.mem_filter.mp hx).1
    rw [hfreshf] at hkeys
    simp only [Bool.false_eq_true, if_false] at hkeys
    refine ⟨hkeys, ?_⟩
    have hlent : t.length + 1 = maxCacheSize := by
      unfold classCount at h200
      rw [hsplit] at h200
      simpa using h200
    unfold classCount classKeysOf
    rw [hkeys, List.filter_append, hfilter_evict k0 t hsplit]
    simp only [List.filter_cons, hnewEnds, if_true, List.filter_nil, List.length_append,
      List.length_cons, List.length_nil]
    omega
  · -- (d) the invariant is preserved
    constructor
    · intro k hk
      by_cases hev : maxCacheSize ≤ (classKeysOf cache cls).length
      · rcases hsplit : classKeysOf cache cls with _ | ⟨k0, t⟩
        · rw [hsplit] at hev
          simp [maxCacheSize] at hev
        · rw [cacheSpecies_keys_evict cache lat lon cls sp nowT k0 t hsplit hev] at hk
          split at hk
          · exact hWFk k (List.mem_filter.mp hk).1
          · rcases List.mem_append.mp hk with hk | hk
            · exact hWFk k (List.mem_filter.mp hk).1
            · rw [List.mem_singleton.mp hk]
              exact hnewWF
      · have hlt : (classKeysOf cache cls).length < maxCacheSize := by omega
        rw [cacheSpecies_keys_noevict cache lat lon cls sp nowT hlt] at hk
        split at hk
        · exact hWFk k hk
        · rcases List.mem_append.mp hk with hk | hk
          · exact hWFk k hk
          · rw [List.mem_singleton.mp hk]
            exact hnewWF
    · by_cases hev : maxCacheSize ≤ (classKeysOf cache cls).length
      · rcases hsplit : classKeysOf cache cls with _ | ⟨k0, t⟩
        · rw [hsplit] at hev
          simp [maxCacheSize] at hev
        · rw [cacheSpecies_keys_evict cache lat lon cls sp nowT k0 t hsplit hev]
          have hnd1 : ((cacheKeys cache).filter (fun x => !(x == k0))).Nodup :=
            hnodup.filter _
          split
          · exact hnd1
          · rename_i hany
            rw [List.nodup_append]
            refine ⟨hnd1, List.nodup_singleton _, ?_⟩
            intro x hx hx1
            rw [List.mem_singleton.mp hx1] at hx
            exact absurd (List.any_eq_true.mpr
              ⟨_, hx, beq_self_eq_true _⟩) (by simp_all)
      · have hlt : (classKeysOf cache cls).length < maxCacheSize := by omega
        rw [cacheSpecies_keys_noevict cache lat lon cls sp nowT hlt]
        split
        · exact hnodup
        · rename_i hany
          rw [List.nodup_append]
          refine ⟨hnodup, List.nodup_singleton _, ?_⟩
          intro x hx hx1
          rw [List.mem_singleton.mp hx1] at hx
          exact absurd (List.any_eq_true.mpr
            ⟨_, hx, beq_self_eq_true _⟩) (by simp_all)

/-! ### Witness for C6: a concrete cache holding 200 bird clusters -/

/-- The rendered key for integral hundredth-degree coordinates. -/
def intKey (a b : Int) (nm : String) : String :=
  toString a ++ "_" ++ toString b ++ "_" ++ nm

/-- 200 distinct bird clusters, inserted in order. -/
def c6cache : Cache :=
  (List.range 200).map (fun i => (intKey i 0 "birds", ⟨[], 0, (0, 0), false⟩))

def c6tail : List String :=
  (List.range 199).map (fun i => intKey ((i : Int) + 1) 0 "birds")

theorem jsRound_intCast (n : ℤ) : jsRound ((n : ℚ)) = n := by
  unfold jsRound
  rw [Int.floor_eq_iff]
  constructor
  · push_cast; linarith
  · push_cast; linarith

theorem genKey_int (a b : ℤ) (cls : TaxClass) :
    generateLocationKey ((a : ℚ) / 100) ((b : ℚ) / 100) cls =
      toString a ++ "_" ++ toString b ++ "_" ++ cls.name := by
  unfold generateLocationKey
  rw [show ((a : ℚ) / 100 * 100) = (a : ℚ) by field_simp]
  rw [show ((b : ℚ) / 100 * 100) = (b : ℚ) by field_simp]
  rw [jsRound_intCast, jsRound_intCast]

set_option maxRecDepth 100000 in
/-- Witness for C6: inserting the 201st distinct bird cluster into a cache
holding exactly 200 evicts precisely the first-inserted key and appends the
new one; the bird count is again 200. -/
theorem C6_witness :
    cacheKeys (cacheSpecies c6cache (((777 : ℤ) : ℚ) / 100) (((0 : ℤ) : ℚ) / 100)
        ⟨"birds", 212, "Birds"⟩ [] 0) =
      (cacheKeys c6cache).filter (fun x => !(x == intKey 0 0 "birds")) ++
        [generateLocationKey (((777 : ℤ) : ℚ) / 100) (((0 : ℤ) : ℚ) / 100)
          ⟨"birds", 212, "Birds"⟩] ∧
    classCount (cacheSpecies c6cache (((777 : ℤ) : ℚ) / 100) (((0 : ℤ) : ℚ) / 100)
        ⟨"birds", 212, "Birds"⟩ [] 0) ⟨"birds", 212, "Birds"⟩ = maxCacheSize := by
  have hwf : CacheWF c6cache := by
    constructor
    · intro k hk
      unfold c6cache cacheKeys at hk
      rw [List.map_map, List.mem_map] at hk
      obtain ⟨i, hi, rfl⟩ := hk
      exact ⟨((i : ℤ) : ℚ) / 100, ((0 : ℤ) : ℚ) / 100, ⟨"birds", 212, "Birds"⟩,
        by decide, (genKey_int i 0 ⟨"birds", 212, "Birds"⟩).symm⟩
    · decide
  have h := C6_cache_bound_fifo c6cache (((777 : ℤ) : ℚ) / 100) (((0 : ℤ) : ℚ) / 100)
    ⟨"birds", 212, "Birds"⟩ [] 0 hwf (by decide)
  exact h.2.2.1 (by decide) (by rw [genKey_int]; decide) (intKey 0 0 "birds") c6tail
    (by decide)

/-! ## C7: cooldown-aware selection -/

theorem pickCandidate_of_no_eligible (l : List Sp) (now w r : Nat)
    (h : l.filter (eligibleSp now w) = []) :
    pickCandidate l now w r = (lruSort l).head? := by
  unfold pickCandidate
  rw [h]
  rfl

theorem pickCandidate_eligible (l : List Sp) (now w r : Nat)
    (hr : r < (l.filter (eligibleSp now w)).length) :
    pickCandidate l now w r = (l.filter (eligibleSp now w)).get? r ∧
    ∃ cand, (l.filter (eligibleSp now w)).get? r = some cand ∧ cand ∈ l ∧
      eligibleSp now w cand = true := by
  constructor
  · unfold pickCandidate
    rw [if_pos (by omega)]
  · refine ⟨(l.filter (eligibleSp now w)).get ⟨r, hr⟩, List.get?_eq_get hr, ?_, ?_⟩
    · have hm := List.get_mem (l.filter (eligibleSp now w)) _ hr
      exact (List.mem_filter.mp hm).1
    · have hm := List.get_mem (l.filter (eligibleSp now w)) _ hr
      exact (List.mem_filter.mp hm).2

theorem lruSort_head_min (l : List Sp) (hne : l ≠ []) :
    ∃ cand, (lruSort l).head? = some cand ∧ cand ∈ l ∧
      ∀ x ∈ l, cand.lastUsed ≤ x.lastUsed := by
  haveI : IsTotal Sp (fun a b => a.lastUsed ≤ b.lastUsed) :=
    ⟨fun a b => Nat.le_total a.lastUsed b.lastUsed⟩
  haveI : IsTrans Sp (fun a b => a.lastUsed ≤ b.lastUsed) :=
    ⟨fun a b c => Nat.le_trans⟩
  have hperm : (lruSort l).Perm l := List.perm_insertionSort _ l
  have hsorted : List.Sorted (fun a b : Sp => a.lastUsed ≤ b.lastUsed) (lruSort l) :=
    List.sorted_insertionSort _ l
  rcases hcase : lruSort l with _ | ⟨c, cs⟩
  · have := hperm.length_eq
    rw [hcase] at this
    simp only [List.length_nil] at this
    exact absurd (List.length_eq_zero.mp this.symm) hne
  · refine ⟨c, rfl, ?_, ?_⟩
    · exact hperm.mem_iff.mp (by rw [hcase]; exact List.mem_cons_self _ _)
    · intro x hx
      have hx2 : x ∈ lruSort l := hperm.mem_iff.mpr hx
      rw [hcase] at hx2
      rcases List.mem_cons.mp hx2 with hx2 | hx2
      · rw [hx2]
      · rw [hcase] at hsorted
        exact (List.pairwise_cons.mp hsorted).1 x hx2

/-- The names produced by a run of consecutive selection steps, together
with the final (stamped) species list. -/
def selNames (now w : Nat) : List Sp → List Nat → Option (List String × List Sp)
  | l, [] => some ([], l)
  | l, r :: rs =>
    match selectStep l now w r with
    | some (s, l2) =>
      match selNames now w l2 rs with
      | some (ns, lf) => some (s.name :: ns, lf)
      | none => none
    | none => none

def c7a : Sp := { name := "American Bullfrog" }
def c7b : Sp := { name := "Green Frog" }
def c7c : Sp := { name := "Spring Peeper" }
def c7now : Nat := 1700000000000
def c7w : Nat := twoDaysMsOf 2

/-- C7: the selection policy partitions candidates into eligible and
in-cooldown ones; when some are eligible the sampled index picks exactly the
corresponding eligible candidate; when none are, the least-recently-used
candidate is chosen irrespective of the random draw.  Consequently, with 3
never-used candidates with distinct names and the 2-day cooldown, 3
consecutive selections at one instant return pairwise distinct names, and a
4th selection (any draw) returns a candidate with the oldest `lastUsed`. -/
theorem C7_selection_policy :
    (∀ (l : List Sp) (now w r : Nat), r < (l.filter (eligibleSp now w)).length →
      pickCandidate l now w r = (l.filter (eligibleSp now w)).get? r ∧
      ∃ cand, (l.filter (eligibleSp now w)).get? r = some cand ∧ cand ∈ l ∧
        eligibleSp now w cand = true) ∧
    (∀ (l : List Sp) (now w r : Nat), l.filter (eligibleSp now w) = [] → l ≠ [] →
      ∃ cand, pickCandidate l now w r = some cand ∧ cand ∈ l ∧
        ∀ x ∈ l, cand.lastUsed ≤ x.lastUsed) ∧
    (∀ r1 r2 r3 : Nat, r1 < 3 → r2 < 2 → r3 < 1 →
      ∃ ns lf, selNames c7now c7w [c7a, c7b, c7c] [r1, r2, r3] = some (ns, lf) ∧
        ns.Nodup ∧ ns.length = 3 ∧
        (∀ r4 : Nat, ∃ s4, pickCandidate lf c7now c7w r4 = some s4 ∧ s4 ∈ lf ∧
          ∀ x ∈ lf, s4.lastUsed ≤ x.lastUsed)) := by
  refine ⟨pickCandidate_eligible, ?_, ?_⟩
  · intro l now w r hempty hne
    rw [pickCandidate_of_no_eligible l now w r hempty]
    exact lruSort_head_min l hne
  · intro r1 r2 r3 h1 h2 h3
    interval_cases r1 <;> interval_cases r2 <;> interval_cases r3 <;>
      · refine ⟨_, _, rfl, by decide, by decide, ?_⟩
        intro r4
        rw [pickCandidate_of_no_eligible _ c7now c7w r4 (by decide)]
        exact ⟨{ c7a with lastUsed := c7now }, by decide, by decide, by decide⟩

/-- Witness for C7 at the concrete draws (0, 1, 0). -/
theorem C7_witness :
    ∃ ns lf, selNames c7now c7w [c7a, c7b, c7c] [0, 1, 0] = some (ns, lf) ∧
      ns.Nodup ∧ ns.length = 3 ∧
      (∀ r4 : Nat, ∃ s4, pickCandidate lf c7now c7w r4 = some s4 ∧ s4 ∈ lf ∧
        ∀ x ∈ lf, s4.lastUsed ≤ x.lastUsed) :=
  C7_selection_policy.2.2 0 1 0 (by decide) (by decide) (by decide)


/-! ## C9: sanitising and binomial extraction of an authored name -/

theorem dropWhile_of_none {p : Char → Bool} {l : List Char}
    (h : ∀ c ∈ l, p c = false) : l.dropWhile p = l := by
  cases l with
  | nil => rfl
  | cons c cs => simp [List.dropWhile_cons, h c (List.mem_cons_self c cs)]

theorem mem_rpAux {c : Char} : ∀ (b : Bool) (l : List Char), c ∈ rpAux b l → c ∈ l := by
  intro b l
  induction l generalizing b with
  | nil =>
    intro h
    cases b <;> simpa [rpAux] using h
  | cons d ds ih =>
    intro h
    cases b with
    | false =>
      simp only [rpAux] at h
      split_ifs at h
      · exact List.mem_cons_of_mem d (ih true h)
      · rcases List.mem_cons.mp h with h | h
        · exact h ▸ List.mem_cons_self d ds
        · exact List.mem_cons_of_mem d (ih false h)
      · rcases List.mem_cons.mp h with h | h
        · exact h ▸ List.mem_cons_self d ds
        · exact List.mem_cons_of_mem d (ih false h)
    | true =>
      simp only [rpAux] at h
      split_ifs at h
      · exact List.mem_cons_of_mem d (ih false h)
      · exact List.mem_cons_of_mem d (ih true h)

theorem dropComma_suffix (s : List Char) : dropComma s <:+ s := by
  unfold dropComma
  split
  · exact ⟨[','], rfl⟩
  · exact List.suffix_refl s

theorem ebSkip_suffix (s : List Char) : ebSkip s <:+ s :=
  (List.dropWhile_suffix jsWhitespace).trans (dropComma_suffix s)

theorem ebMatchAt_subset {s rest : List Char} (h : ebMatchAt s = some rest) :
    rest ⊆ s := by
  unfold ebMatchAt at h
  split_ifs at h
  · rw [Option.some.injEq] at h
    subst h
    exact ((List.drop_suffix 4 _).trans (ebSkip_suffix s)).subset
  · rw [Option.some.injEq] at h
    subst h
    exact ((List.drop_suffix 3 _).trans (ebSkip_suffix s)).subset

theorem mem_ebScanF {c : Char} : ∀ (f : Nat) (l : List Char), c ∈ ebScanF f l → c ∈ l := by
  intro f
  induction f with
  | zero =>
    intro l h
    cases l with
    | nil => simpa [ebScanF] using h
    | cons d ds => simpa [ebScanF] using h
  | succ f ih =>
    intro l h
    cases l with
    | nil => simpa [ebScanF] using h
    | cons d ds =>
      rw [ebScanF] at h
      cases hm : ebMatchAt (d :: ds) with
      | some rest =>
        rw [hm] at h
        exact ebMatchAt_subset hm (ih rest h)
      | none =>
        rw [hm] at h
        rcases List.mem_cons.mp h with h | h
        · exact h ▸ List.mem_cons_self d ds
        · exact List.mem_cons_of_mem d (ih ds h)

theorem collapseWsAux_of_no_ws : ∀ (b : Bool) (l : List Char),
    (∀ c ∈ l, jsWhitespace c = false) → collapseWsAux b l = l := by
  intro b l
  induction l generalizing b with
  | nil => intro _; rfl
  | cons c cs ih =>
    intro h
    have hc : jsWhitespace c = false := h c (List.mem_cons_self c cs)
    rw [show collapseWsAux b (c :: cs) = c :: collapseWsAux false cs by
      simp [collapseWsAux, hc]]
    rw [ih false fun x hx => h x (List.mem_cons_of_mem c hx)]

theorem trimWs_of_no_ws {l : List Char} (h : ∀ c ∈ l, jsWhitespace c = false) :
    trimWs l = l := by
  unfold trimWs
  rw [dropWhile_of_none h, dropWhile_of_none fun c hc => h c (List.mem_reverse.mp hc),
    List.reverse_reverse]

/-- C9: `sanitizeDisplayName` on the raw authored name yields exactly
"Lithobates catesbeianus", in particular a string with no digit and no
parenthesis; but `extractBinomial` on the same raw input yields
"Lithobates catesbeianus," with a trailing comma — the pattern
`,?\s*\d{3,4}` only removes a comma directly preceding the digit run, so
the comma left behind by the removed parenthetical survives into the second
word — not the bare binomial the spec states.  `extractBinomial` of any
whitespace-free (in particular single-word) input is the empty string. -/
theorem C9_binomial_extraction :
    sanitizeDisplayName "Lithobates catesbeianus, (Shaw, 1802)" =
        "Lithobates catesbeianus" ∧
    (List.all (sanitizeDisplayName "Lithobates catesbeianus, (Shaw, 1802)").data
        fun c => !(isAsciiDigit c) && !(c = '(') && !(c = ')')) = true ∧
    extractBinomial "Lithobates catesbeianus, (Shaw, 1802)" =
        "Lithobates catesbeianus," ∧
    ∀ s : String, (∀ c ∈ s.data, jsWhitespace c = false) → extractBinomial s = "" := by
  refine ⟨by decide, by decide, by decide, ?_⟩
  intro s h
  have hsub : ∀ c ∈ ebScan (removeParens s.data), c ∈ s.data := by
    intro c hc
    exact mem_rpAux false s.data (mem_ebScanF _ _ hc)
  have hws : ∀ c ∈ ebScan (removeParens s.data), jsWhitespace c = false :=
    fun c hc => h c (hsub c hc)
  have hstage : trimWs (collapseWs (ebScan (removeParens s.data))) =
      ebScan (removeParens s.data) := by
    rw [show collapseWs (ebScan (removeParens s.data)) = ebScan (removeParens s.data)
      from collapseWsAux_of_no_ws false _ hws]
    exact trimWs_of_no_ws hws
  unfold extractBinomial
  dsimp only
  rw [hstage]
  rcases hl : ebScan (removeParens s.data) with _ | ⟨c, cs⟩
  · rfl
  · rw [hl] at hws
    have hnosp : ∀ x ∈ c :: cs, ¬((x == ' ') = true) := by
      intro x hx hxe
      have hxw : jsWhitespace x = false := hws x hx
      have hx2 : x = ' ' := by simpa using hxe
      rw [hx2] at hxw
      exact absurd hxw (by decide)
    have hsplit : List.splitOn ' ' (c :: cs) = [c :: cs] := by
      unfold List.splitOn
      exact List.splitOnP_eq_single _ _ hnosp
    rw [hsplit]
    rfl

/-- C9 counterexample: `extractBinomial` keeps the comma after the epithet,
so its output differs from the bare binomial stated by the spec. -/
theorem C9_counterexample :
    extractBinomial "Lithobates catesbeianus, (Shaw, 1802)" ≠
      "Lithobates catesbeianus" := by
  decide

/-- Witness for C9 at the single-word input "Panthera". -/
theorem C9_witness : extractBinomial "Panthera" = "" :=
  C9_binomial_extraction.2.2.2 "Panthera" (by decide)


/-! ## C8: sanitisation idempotence -/

theorem takeWhile_of_none {p : Char → Bool} {l : List Char}
    (h : ∀ c ∈ l, p c = false) : l.takeWhile p = [] := by
  cases l with
  | nil => rfl
  | cons c cs => simp [List.takeWhile_cons, h c (List.mem_cons_self c cs)]

theorem dropWhile_of_head {p : Char → Bool} {l : List Char}
    (h : ∀ c, l.head? = some c → p c = false) : l.dropWhile p = l := by
  cases l with
  | nil => rfl
  | cons c cs => simp [List.dropWhile_cons, h c rfl]

theorem head_dropWhile {p : Char → Bool} : ∀ {l : List Char} {c : Char},
    (l.dropWhile p).head? = some c → p c = false := by
  intro l
  induction l with
  | nil =>
    intro c h
    simp [List.dropWhile] at h
  | cons d ds ih =>
    intro c h
    rw [List.dropWhile_cons] at h
    by_cases hd : p d
    · rw [if_pos hd] at h
      exact ih h
    · rw [if_neg hd] at h
      have hdc : d = c := by simpa using h
      subst hdc
      exact Bool.eq_false_iff.mpr hd

theorem getLast_of_suffix {l1 l2 : List Char} (h : l1 <:+ l2) (hne : l1 ≠ []) :
    l2.getLast? = l1.getLast? := by
  obtain ⟨t, rfl⟩ := h
  exact List.getLast?_append_of_ne_nil t hne

theorem getLast_cons_some (a : Char) (l : List Char) :
    ∃ c, (a :: l).getLast? = some c := by
  rw [← List.head?_reverse]
  cases hr : (a :: l).reverse with
  | nil => exact absurd (List.reverse_eq_nil_iff.mp hr) (by simp)
  | cons z zs => exact ⟨z, rfl⟩

theorem mem_collapseWsAux {c : Char} : ∀ (b : Bool) (l : List Char),
    c ∈ collapseWsAux b l → c ∈ l ∨ c = ' ' := by
  intro b l
  induction l generalizing b with
  | nil =>
    intro h
    simp [collapseWsAux] at h
  | cons d ds ih =>
    intro h
    by_cases hd : jsWhitespace d
    · rw [show collapseWsAux b (d :: ds) =
          (if b then collapseWsAux true ds else ' ' :: collapseWsAux true ds) by
        simp [collapseWsAux, hd]] at h
      by_cases hb : b
      · rw [if_pos hb] at h
        rcases ih true h with h | h
        · exact Or.inl (List.mem_cons_of_mem d h)
        · exact Or.inr h
      · rw [if_neg hb] at h
        rcases List.mem_cons.mp h with h | h
        · exact Or.inr h
        · rcases ih true h with h | h
          · exact Or.inl (List.mem_cons_of_mem d h)
          · exact Or.inr h
    · rw [show collapseWsAux b (d :: ds) = d :: collapseWsAux false ds by
        simp [collapseWsAux, hd]] at h
      rcases List.mem_cons.mp h with h | h
      · exact Or.inl (h ▸ List.mem_cons_self d ds)
      · rcases ih false h with h | h
        · exact Or.inl (List.mem_cons_of_mem d h)
        · exact Or.inr h

theorem mem_trimWs {c : Char} {l : List Char} (h : c ∈ trimWs l) : c ∈ l := by
  unfold trimWs at h
  rw [List.mem_reverse] at h
  have h2 := (List.dropWhile_suffix jsWhitespace).subset h
  rw [List.mem_reverse] at h2
  exact (List.dropWhile_suffix jsWhitespace).subset h2

theorem mem_dropTrailJunk {c : Char} {l : List Char} (h : c ∈ dropTrailJunk l) : c ∈ l := by
  unfold dropTrailJunk at h
  rw [List.mem_reverse] at h
  have h2 := (List.dropWhile_suffix trailJunk).subset h
  rw [List.mem_reverse] at h2
  exact h2

theorem head_collapseWsAux_true : ∀ {l : List Char} {c : Char},
    (collapseWsAux true l).head? = some c → jsWhitespace c = false := by
  intro l
  induction l with
  | nil =>
    intro c h
    simp [collapseWsAux] at h
  | cons d ds ih =>
    intro c h
    by_cases hd : jsWhitespace d
    · rw [show collapseWsAux true (d :: ds) = collapseWsAux true ds by
        simp [collapseWsAux, hd]] at h
      exact ih h
    · rw [show collapseWsAux true (d :: ds) = d :: collapseWsAux false ds by
        simp [collapseWsAux, hd]] at h
      have hdc : d = c := by simpa using h
      subst hdc
      exact Bool.eq_false_iff.mpr hd

theorem collapseWsAux_inv : ∀ (b : Bool) (l : List Char),
    (∀ c ∈ collapseWsAux b l, jsWhitespace c = true → c = ' ') ∧
    List.Chain' (fun a b2 => jsWhitespace a = false ∨ jsWhitespace b2 = false)
      (collapseWsAux b l) := by
  intro b l
  induction l generalizing b with
  | nil => exact ⟨fun c hc => absurd hc (by simp [collapseWsAux]), by simp [collapseWsAux]⟩
  | cons d ds ih =>
    by_cases hd : jsWhitespace d
    · by_cases hb : b
      · rw [show collapseWsAux b (d :: ds) = collapseWsAux true ds by
          simp [collapseWsAux, hd, hb]]
        exact ih true
      · rw [show collapseWsAux b (d :: ds) = ' ' :: collapseWsAux true ds by
          simp [collapseWsAux, hd, hb]]
        constructor
        · intro c hc hcw
          rcases List.mem_cons.mp hc with hc | hc
          · exact hc
          · exact (ih true).1 c hc hcw
        · rw [List.chain'_cons']
          refine ⟨?_, (ih true).2⟩
          intro y hy
          exact Or.inr (head_collapseWsAux_true (Option.mem_def.mp hy))
    · rw [show collapseWsAux b (d :: ds) = d :: collapseWsAux false ds by
        simp [collapseWsAux, hd]]
      constructor
      · intro c hc hcw
        rcases List.mem_cons.mp hc with hc | hc
        · rw [hc] at hcw
          exact absurd hcw hd
        · exact (ih false).1 c hc hcw
      · rw [List.chain'_cons']
        refine ⟨fun y _ => Or.inl (Bool.eq_false_iff.mpr hd), (ih false).2⟩

theorem collapseWsAux_id : ∀ (l : List Char),
    (∀ c ∈ l, jsWhitespace c = true → c = ' ') →
    List.Chain' (fun a b2 => jsWhitespace a = false ∨ jsWhitespace b2 = false) l →
    ∀ b : Bool, (b = true → ∀ c, l.head? = some c → jsWhitespace c = false) →
    collapseWsAux b l = l := by
  intro l
  induction l with
  | nil =>
    intro _ _ b _
    rfl
  | cons d ds ih =>
    intro hmem hch b hb
    by_cases hd : jsWhitespace d
    · have hd2 : d = ' ' := hmem d (List.mem_cons_self d ds) hd
      have hbf : b = false := by
        cases b with
        | false => rfl
        | true => exact absurd (hb rfl d rfl) (by simp [hd])
      subst hbf
      rw [show collapseWsAux false (d :: ds) = ' ' :: collapseWsAux true ds by
        simp [collapseWsAux, hd]]
      rw [List.chain'_cons'] at hch
      rw [ih (fun c hc => hmem c (List.mem_cons_of_mem d hc)) hch.2 true
        (fun _ c hc => by
          rcases hch.1 c (Option.mem_def.mpr hc) with h | h
          · exact absurd h (by simp [hd])
          · exact h)]
      rw [hd2]
    · rw [show collapseWsAux b (d :: ds) = d :: collapseWsAux false ds by
        simp [collapseWsAux, hd]]
      rw [List.chain'_cons'] at hch
      rw [ih (fun c hc => hmem c (List.mem_cons_of_mem d hc)) hch.2 false (by simp)]

theorem collapseWsAux_getLast : ∀ (b : Bool) (l : List Char),
    (∀ c, l.getLast? = some c → jsWhitespace c = false) →
    (collapseWsAux b l).getLast? = l.getLast? := by
  intro b l
  induction l generalizing b with
  | nil =>
    intro _
    rfl
  | cons d ds ih =>
    intro h
    cases ds with
    | nil =>
      have hd : jsWhitespace d = false := h d (by simp)
      rw [show collapseWsAux b [d] = [d] by simp [collapseWsAux, hd]]
    | cons e es =>
      have h2 : ∀ c, (e :: es).getLast? = some c → jsWhitespace c = false := by
        intro c hc
        apply h
        rw [List.getLast?_cons_cons]
        exact hc
      by_cases hd : jsWhitespace d
      · by_cases hb : b
        · rw [show collapseWsAux b (d :: e :: es) = collapseWsAux true (e :: es) by
            simp [collapseWsAux, hd, hb]]
          rw [ih true h2, List.getLast?_cons_cons]
        · rw [show collapseWsAux b (d :: e :: es) = ' ' :: collapseWsAux true (e :: es) by
            simp [collapseWsAux, hd, hb]]
          have h3 := ih true h2
          cases hz : collapseWsAux true (e :: es) with
          | nil =>
            exfalso
            obtain ⟨c, hc⟩ := getLast_cons_some e es
            rw [hz] at h3
            rw [hc] at h3
            exact Option.noConfusion h3
          | cons z zs =>
            rw [hz] at h3
            rw [List.getLast?_cons_cons, h3, List.getLast?_cons_cons]
      · rw [show collapseWsAux b (d :: e :: es) = d :: collapseWsAux false (e :: es) by
          simp [collapseWsAux, hd]]
        have h3 := ih false h2
        cases hz : collapseWsAux false (e :: es) with
        | nil =>
          exfalso
          obtain ⟨c, hc⟩ := getLast_cons_some e es
          rw [hz] at h3
          rw [hc] at h3
          exact Option.noConfusion h3
        | cons z zs =>
          rw [hz] at h3
          rw [List.getLast?_cons_cons, h3, List.getLast?_cons_cons]

theorem ws_of_not_junk {c : Char} (h : trailJunk c = false) : jsWhitespace c = false := by
  unfold trailJunk at h
  simp only [Bool.or_eq_false_iff] at h
  exact h.2

theorem trimWs_id {l : List Char}
    (hhead : ∀ c, l.head? = some c → jsWhitespace c = false)
    (hlast : ∀ c, l.getLast? = some c → jsWhitespace c = false) :
    trimWs l = l := by
  unfold trimWs
  rw [dropWhile_of_head hhead]
  rw [dropWhile_of_head (fun c hc => hlast c ((List.head?_reverse l).symm.trans hc))]
  exact List.reverse_reverse l

theorem dropTrailJunk_id {l : List Char}
    (hlast : ∀ c, l.getLast? = some c → trailJunk c = false) :
    dropTrailJunk l = l := by
  unfold dropTrailJunk
  rw [dropWhile_of_head (fun c hc => hlast c ((List.head?_reverse l).symm.trans hc))]
  exact List.reverse_reverse l

theorem dropTrailJunk_getLast (l : List Char) :
    ∀ c, (dropTrailJunk l).getLast? = some c → trailJunk c = false := by
  intro c hc
  unfold dropTrailJunk at hc
  rw [List.getLast?_reverse] at hc
  exact head_dropWhile hc

theorem rpAux_no_lparen : ∀ (l : List Char), (∀ c ∈ l, ¬(c = '(')) →
    rpAux false l = l := by
  intro l
  induction l with
  | nil =>
    intro _
    rfl
  | cons d ds ih =>
    intro h
    rw [show rpAux false (d :: ds) = d :: rpAux false ds by
      simp [rpAux, h d (List.mem_cons_self d ds)]]
    rw [ih fun c hc => h c (List.mem_cons_of_mem d hc)]

theorem aySkip_suffix (s : List Char) : aySkip s <:+ s :=
  (List.dropWhile_suffix ayBarrier).trans (dropComma_suffix s)

theorem ayMatchAt_of_no_digit {s : List Char} (h : ∀ c ∈ s, isAsciiDigit c = false) :
    ayMatchAt s = none := by
  unfold ayMatchAt
  rw [takeWhile_of_none fun c hc => h c ((aySkip_suffix s).subset hc)]
  simp

theorem ayScanF_of_no_digit : ∀ (f : Nat) (l : List Char),
    (∀ c ∈ l, isAsciiDigit c = false) → ayScanF f l = l := by
  intro f
  induction f with
  | zero =>
    intro l _
    cases l <;> rfl
  | succ f ih =>
    intro l h
    cases l with
    | nil => rfl
    | cons d ds =>
      rw [ayScanF, ayMatchAt_of_no_digit h]
      rw [ih ds fun c hc => h c (List.mem_cons_of_mem d hc)]

theorem tokenStageF_of_no_token : ∀ (f : Nat) (l : List Char), l.length ≤ f →
    (∀ r ∈ wordRunsF f l, shorthandTokens.contains (lcRun r) = false) →
    tokenStageF f l = l := by
  intro f
  induction f with
  | zero =>
    intro l hlen _
    have hl : l = [] := List.length_eq_zero.mp (Nat.le_zero.mp hlen)
    subst hl
    rfl
  | succ f ih =>
    intro l hlen hr
    cases l with
    | nil => rfl
    | cons d ds =>
      by_cases hd : isWordChar d
      · have hrun : shorthandTokens.contains (lcRun (d :: ds.takeWhile isWordChar)) = false := by
          apply hr
          rw [show wordRunsF (f + 1) (d :: ds) =
              (d :: ds.takeWhile isWordChar) :: wordRunsF f (ds.dropWhile isWordChar) by
            simp [wordRunsF, hd]]
          exact List.mem_cons_self _ _
        have hrun2 : lcRun (d :: ds.takeWhile isWordChar) ∉ shorthandTokens := by
          simpa using hrun
        rw [show tokenStageF (f + 1) (d :: ds) =
            (d :: ds.takeWhile isWordChar) ++ tokenStageF f (ds.dropWhile isWordChar) by
          simp [tokenStageF, hd, hrun2]]
        have hlen2 : (ds.dropWhile isWordChar).length ≤ f := by
          have h1 := length_dropWhile_le isWordChar ds
          simp only [List.length_cons] at hlen
          omega
        have hr2 : ∀ r ∈ wordRunsF f (ds.dropWhile isWordChar),
            shorthandTokens.contains (lcRun r) = false := by
          intro r hrr
          apply hr
          rw [show wordRunsF (f + 1) (d :: ds) =
              (d :: ds.takeWhile isWordChar) :: wordRunsF f (ds.dropWhile isWordChar) by
            simp [wordRunsF, hd]]
          exact List.mem_cons_of_mem _ hrr
        rw [ih _ hlen2 hr2]
        rw [List.cons_append]
        rw [List.takeWhile_append_dropWhile]
      · rw [show tokenStageF (f + 1) (d :: ds) = d :: tokenStageF f ds by
          simp [tokenStageF, hd]]
        have hlen2 : ds.length ≤ f := by
          simp only [List.length_cons] at hlen
          omega
        have hr2 : ∀ r ∈ wordRunsF f ds, shorthandTokens.contains (lcRun r) = false := by
          intro r hrr
          apply hr
          rw [show wordRunsF (f + 1) (d :: ds) = wordRunsF f ds by simp [wordRunsF, hd]]
          exact hrr
        rw [ih ds hlen2 hr2]

theorem map_id_of {f : Char → Char} : ∀ {l : List Char}, (∀ c ∈ l, f c = c) → l.map f = l := by
  intro l
  induction l with
  | nil =>
    intro _
    rfl
  | cons d ds ih =>
    intro h
    rw [List.map_cons, h d (List.mem_cons_self d ds),
      ih fun c hc => h c (List.mem_cons_of_mem d hc)]

theorem quoteMap_of_keep {c : Char} (h : keepPunct c = true) : quoteMap c = c := by
  unfold quoteMap
  split_ifs with hc
  · exfalso
    simp only [Bool.or_eq_true, decide_eq_true_eq] at hc
    rcases hc with ((hc | hc) | hc) | hc <;>
      · subst hc
        revert h
        decide
  · rfl

theorem ne_lparen_of_keep {c : Char} (h : keepPunct c = true) : ¬(c = '(') := by
  intro hc
  subst hc
  revert h
  decide

theorem isAsciiDigit_quoteMap {c : Char} (h : isAsciiDigit c = false) :
    isAsciiDigit (quoteMap c) = false := by
  unfold quoteMap
  split_ifs with hc
  · decide
  · exact h

theorem sanitize_fixpoint (s : String)
    (hmem : ∀ c ∈ s.data, jsWhitespace c = true → c = ' ')
    (hch : List.Chain' (fun a b => jsWhitespace a = false ∨ jsWhitespace b = false) s.data)
    (hkeep : ∀ c ∈ s.data, keepPunct c = true)
    (hdig : ∀ c ∈ s.data, isAsciiDigit c = false)
    (hhead : ∀ c, s.data.head? = some c → jsWhitespace c = false)
    (hlast : ∀ c, s.data.getLast? = some c → trailJunk c = false)
    (htok : hasTokenRun shorthandTokens s.data = false)
    (hlen : 2 ≤ s.data.length) :
    sanitizeDisplayName s = s := by
  have hlastWs : ∀ c, s.data.getLast? = some c → jsWhitespace c = false :=
    fun c hc => ws_of_not_junk (hlast c hc)
  have hcol : collapseWs s.data = s.data :=
    collapseWsAux_id s.data hmem hch false (by simp)
  have htrim : trimWs s.data = s.data := trimWs_id hhead hlastWs
  have hpar : removeParens s.data = s.data :=
    rpAux_no_lparen s.data fun c hc => ne_lparen_of_keep (hkeep c hc)
  have hay : ayScan s.data = s.data := ayScanF_of_no_digit _ s.data hdig
  have htokn : ∀ r ∈ wordRunsF s.data.length s.data,
      shorthandTokens.contains (lcRun r) = false := by
    unfold hasTokenRun wordRuns at htok
    intro r hrr
    exact Bool.eq_false_iff.mpr (List.any_eq_false.mp htok r hrr)
  have htks : tokenStage s.data = s.data :=
    tokenStageF_of_no_token s.data.length s.data le_rfl htokn
  have hfil1 : s.data.filter (fun c => !(isAsciiDigit c)) = s.data :=
    List.filter_eq_self.mpr fun c hc => by
      rw [hdig c hc]
      rfl
  have hqm : s.data.map quoteMap = s.data :=
    map_id_of fun c hc => quoteMap_of_keep (hkeep c hc)
  have hfil2 : s.data.filter keepPunct = s.data :=
    List.filter_eq_self.mpr fun c hc => hkeep c hc
  have hdtj : dropTrailJunk s.data = s.data := dropTrailJunk_id hlast
  unfold sanitizeDisplayName
  dsimp only
  rw [hcol, htrim, hpar, hay, htks, hfil1, hqm, hfil2, hdtj, hcol, htrim]
  rw [if_neg (by omega)]

theorem trim_collapse_inv (y : List Char)
    (hylast : ∀ c, y.getLast? = some c → trailJunk c = false) :
    trimWs (collapseWs y) = [] ∨
    ((∀ c ∈ trimWs (collapseWs y), c ∈ y ∨ c = ' ') ∧
     (∀ c ∈ trimWs (collapseWs y), jsWhitespace c = true → c = ' ') ∧
     List.Chain' (fun a b => jsWhitespace a = false ∨ jsWhitespace b = false)
       (trimWs (collapseWs y)) ∧
     (∀ c, (trimWs (collapseWs y)).head? = some c → jsWhitespace c = false) ∧
     (∀ c, (trimWs (collapseWs y)).getLast? = some c → trailJunk c = false)) := by
  by_cases hnil : trimWs (collapseWs y) = []
  · exact Or.inl hnil
  right
  have hwlast : (collapseWs y).getLast? = y.getLast? :=
    collapseWsAux_getLast false y fun c hc => ws_of_not_junk (hylast c hc)
  have hw1ne : (collapseWs y).dropWhile jsWhitespace ≠ [] := by
    intro h0
    apply hnil
    unfold trimWs
    rw [h0]
    rfl
  have hw1last : ∀ c, ((collapseWs y).dropWhile jsWhitespace).getLast? = some c →
      trailJunk c = false := by
    intro c hc
    have he := getLast_of_suffix (List.dropWhile_suffix jsWhitespace) hw1ne
    exact hylast c (hwlast.symm.trans (he.trans hc))
  have ho : trimWs (collapseWs y) = (collapseWs y).dropWhile jsWhitespace := by
    unfold trimWs
    rw [dropWhile_of_head fun c hc => ws_of_not_junk (hw1last c
      ((List.head?_reverse _).symm.trans hc))]
    exact List.reverse_reverse _
  rw [ho]
  refine ⟨?_, ?_, ?_, ?_, ?_⟩
  · intro c hc
    exact mem_collapseWsAux false y ((List.dropWhile_suffix jsWhitespace).subset hc)
  · intro c hc hcw
    exact (collapseWsAux_inv false y).1 c ((List.dropWhile_suffix jsWhitespace).subset hc) hcw
  · exact (collapseWsAux_inv false y).2.suffix (List.dropWhile_suffix jsWhitespace)
  · intro c hc
    exact head_dropWhile hc
  · intro c hc
    exact hw1last c hc

theorem data_mk (l : List Char) : (⟨l⟩ : String).data = l := rfl

theorem sanitizeDisplayName_eq (x : String) :
    sanitizeDisplayName x =
      if (trimWs (collapseWs (dropTrailJunk (List.filter keepPunct
          (List.map quoteMap (List.filter (fun c => !(isAsciiDigit c))
          (tokenStage (ayScan (removeParens (trimWs (collapseWs x.data))))))))))).length < 2
      then ""
      else ⟨trimWs (collapseWs (dropTrailJunk (List.filter keepPunct
          (List.map quoteMap (List.filter (fun c => !(isAsciiDigit c))
          (tokenStage (ayScan (removeParens (trimWs (collapseWs x.data))))))))))⟩ := rfl

theorem sanitize_data (x : String) :
    sanitizeDisplayName x = "" ∨
    ((sanitizeDisplayName x).data = trimWs (collapseWs (dropTrailJunk (List.filter keepPunct
        (List.map quoteMap (List.filter (fun c => !(isAsciiDigit c))
        (tokenStage (ayScan (removeParens (trimWs (collapseWs x.data)))))))))) ∧
     2 ≤ (sanitizeDisplayName x).data.length) := by
  rw [sanitizeDisplayName_eq x]
  by_cases hlen : (trimWs (collapseWs (dropTrailJunk (List.filter keepPunct
      (List.map quoteMap (List.filter (fun c => !(isAsciiDigit c))
      (tokenStage (ayScan (removeParens (trimWs (collapseWs x.data))))))))))).length < 2
  · rw [if_pos hlen]
    exact Or.inl rfl
  · rw [if_neg hlen]
    refine Or.inr ⟨data_mk _, ?_⟩
    rw [data_mk]
    exact Nat.le_of_not_lt hlen

theorem trim_collapse_inv_abs (y o : List Char) (ho : o = trimWs (collapseWs y))
    (hylast : ∀ c, y.getLast? = some c → trailJunk c = false) :
    o = [] ∨
    ((∀ c ∈ o, c ∈ y ∨ c = ' ') ∧
     (∀ c ∈ o, jsWhitespace c = true → c = ' ') ∧
     List.Chain' (fun a b => jsWhitespace a = false ∨ jsWhitespace b = false) o ∧
     (∀ c, o.head? = some c → jsWhitespace c = false) ∧
     (∀ c, o.getLast? = some c → trailJunk c = false)) := by
  subst ho
  exact trim_collapse_inv y hylast

set_option linter.constructorNameAsVariable false in
/-- C8: sanitisation is NOT idempotent in general — removing digits after
the shorthand-token stage can create a fresh shorthand token that only a
second pass strips (see the counterexample "s2p") — but it is idempotent on
every input whose sanitised form contains no shorthand-token word run. -/
theorem C8_sanitize_idempotent (x : String)
    (h : hasTokenRun shorthandTokens (sanitizeDisplayName x).data = false) :
    sanitizeDisplayName (sanitizeDisplayName x) = sanitizeDisplayName x := by
  obtain ⟨o, ho⟩ : ∃ o, (sanitizeDisplayName x).data = o := ⟨_, rfl⟩
  rcases sanitize_data x with he | ⟨hdata, hlen⟩
  · rw [he]
    decide
  rw [ho] at hdata hlen h
  have hs : sanitizeDisplayName x = ⟨o⟩ := by
    rw [← ho]
  rw [hs]
  rcases trim_collapse_inv_abs _ _ hdata (dropTrailJunk_getLast _) with hnil | hinv
  · rw [hnil] at hlen
    exact absurd hlen (by simp)
  obtain ⟨hmemo, hwso, hcho, hheado, hlasto⟩ := hinv
  have hkeep : ∀ c ∈ o, keepPunct c = true := by
    intro c hc
    rcases hmemo c hc with hc2 | hc2
    · have hc3 := mem_dropTrailJunk hc2
      exact (List.mem_filter.mp hc3).2
    · rw [hc2]
      decide
  have hdig : ∀ c ∈ o, isAsciiDigit c = false := by
    intro c hc
    rcases hmemo c hc with hc2 | hc2
    · have hc3 := mem_dropTrailJunk hc2
      have hc4 := (List.mem_filter.mp hc3).1
      obtain ⟨d, hd, hdc⟩ := List.mem_map.mp hc4
      have hd2 : isAsciiDigit d = false := by
        have hd3 := (List.mem_filter.mp hd).2
        simpa using hd3
      rw [← hdc]
      exact isAsciiDigit_quoteMap hd2
    · rw [hc2]
      decide
  exact sanitize_fixpoint ⟨o⟩
    (by rw [data_mk]; exact hwso)
    (by rw [data_mk]; exact hcho)
    (by rw [data_mk]; exact hkeep)
    (by rw [data_mk]; exact hdig)
    (by rw [data_mk]; exact hheado)
    (by rw [data_mk]; exact hlasto)
    (by rw [data_mk]; exact h)
    (by rw [data_mk]; exact hlen)

/-- C8 counterexample: sanitising "s2p" yields "sp" (the digit filter runs
after the shorthand-token stage, creating the token "sp"), and sanitising
"sp" strips that token leaving "", so the composite differs from a single
pass. -/
theorem C8_counterexample :
    sanitizeDisplayName (sanitizeDisplayName "s2p") ≠ sanitizeDisplayName "s2p" := by
  decide

/-- Witness for C8 at the token-free input "Great Blue Heron". -/
theorem C8_witness :
    sanitizeDisplayName (sanitizeDisplayName "Great Blue Heron") =
      sanitizeDisplayName "Great Blue Heron" :=
  C8_sanitize_idempotent "Great Blue Heron" (by decide)

end Momentus
